import Mathlib

/-!
Shallow embedding of the incremental knowledge-graph construction engine
(`run_graphdb.py`, `stock_knowledge_graph.py`, `data_collectors.py`,
`data_processors.py`, `graph_builders.py`) and proofs about its claims.

Conventions:
* Python dicts become association lists; a `[]`-access that can raise
  `KeyError` becomes an `Except` failure (the spec's `MalformedRecordError`),
  a `.get(k, default)` becomes a defaulted lookup.
* Cypher query strings become structured merge specifications; the store is a
  labeled graph (list of nodes, list of directed typed edges) and `MERGE`
  semantics are given explicitly.
* Python's `int()` on substrings of well-formed date strings is modeled as
  digit-string parsing (the claims only quantify over well-formed
  `YYYYMMDD` / `YYYY-MM-DD` inputs).
-/

/-! ## Digit / date-string utilities -/

/-- Numeric value of a digit character. -/
def digitVal (c : Char) : Nat := c.toNat - 48

/-- The character for digit `n` (`n ≤ 9`). -/
def digitChar (n : Nat) : Char := Char.ofNat (48 + n)

/-- Parse two digit characters as a two-digit number (models `int` on a
2-character slice of a well-formed date string). -/
def parse2 (a b : Char) : Option Nat :=
  if a.isDigit ∧ b.isDigit then some (digitVal a * 10 + digitVal b) else none

/-- Parse four digit characters as a four-digit number. -/
def parse4 (a b c d : Char) : Option Nat :=
  if a.isDigit ∧ b.isDigit ∧ c.isDigit ∧ d.isDigit then
    some (((digitVal a * 10 + digitVal b) * 10 + digitVal c) * 10 + digitVal d)
  else none

/-- Zero-padded 4-digit rendering of `y` (`y ≤ 9999`), as characters. -/
def pad4 (y : Nat) : List Char :=
  [digitChar (y / 1000), digitChar (y / 100 % 10), digitChar (y / 10 % 10), digitChar (y % 10)]

/-- Zero-padded 2-digit rendering of `m` (`m ≤ 99`), as characters. -/
def pad2 (m : Nat) : List Char := [digitChar (m / 10), digitChar (m % 10)]

/-- `YYYYMMDD` rendering of a (year, month, day) triple. -/
def fmt8 (y m d : Nat) : String := String.mk (pad4 y ++ pad2 m ++ pad2 d)

/-- `YYYY-MM-DD` rendering of a (year, month, day) triple. -/
def fmtISO (y m d : Nat) : String :=
  String.mk (pad4 y ++ '-' :: pad2 m ++ '-' :: pad2 d)

/-- Gregorian leap-year rule (as used by Python's `datetime`). -/
def isLeap (y : Nat) : Bool := (y % 4 == 0 && y % 100 != 0) || y % 400 == 0

/-- Days in a month of the proleptic Gregorian calendar. -/
def daysInMonth (y m : Nat) : Nat :=
  if m = 2 then (if isLeap y then 29 else 28)
  else if m = 4 ∨ m = 6 ∨ m = 9 ∨ m = 11 then 30
  else 31

theorem daysInMonth_pos (y m : Nat) : 1 ≤ daysInMonth y m := by
  unfold daysInMonth; split_ifs <;> omega

theorem daysInMonth_le_31 (y m : Nat) : daysInMonth y m ≤ 31 := by
  unfold daysInMonth; split_ifs <;> omega

/-!
## `stock_knowledge_graph._get_date_components`

The source tries the 8-character `YYYYMMDD` slice-and-`int` path first and
otherwise parses with `datetime.strptime(date_str, '%Y-%m-%d')`; any exception
yields `(None, None, None, None)`, modeled as `none`.  `strptime` is standard
library code, modeled here on the strict zero-padded `YYYY-MM-DD` shape the
claims quantify over (it validates the calendar ranges, including leap years).
-/

def get_date_components (s : String) : Option (Nat × Nat × Nat × Nat) :=
  match s.data with
  | [a, b, c, d, e, f, g, h] => do
      let year ← parse4 a b c d
      let month ← parse2 e f
      let day ← parse2 g h
      some (year, month, day, (month - 1) / 3 + 1)
  | [a, b, c, d, '-', e, f, '-', g, h] => do
      let year ← parse4 a b c d
      let month ← parse2 e f
      let day ← parse2 g h
      if 1 ≤ year ∧ 1 ≤ month ∧ month ≤ 12 ∧ 1 ≤ day ∧ day ≤ daysInMonth year month then
        some (year, month, day, (month - 1) / 3 + 1)
      else none
  | _ => none

/-! Round-trip lemmas: parsing the rendering of in-range components. -/

theorem digitChar_isDigit {n : Nat} (h : n ≤ 9) : (digitChar n).isDigit = true := by
  interval_cases n <;> decide

theorem digitVal_digitChar {n : Nat} (h : n ≤ 9) : digitVal (digitChar n) = n := by
  interval_cases n <;> decide

theorem parse4_pad4 {y : Nat} (h : y ≤ 9999) :
    parse4 (digitChar (y / 1000)) (digitChar (y / 100 % 10))
      (digitChar (y / 10 % 10)) (digitChar (y % 10)) = some y := by
  have h1 : y / 1000 ≤ 9 := by omega
  have h2 : y / 100 % 10 ≤ 9 := by omega
  have h3 : y / 10 % 10 ≤ 9 := by omega
  have h4 : y % 10 ≤ 9 := by omega
  simp only [parse4, digitChar_isDigit h1, digitChar_isDigit h2, digitChar_isDigit h3,
    digitChar_isDigit h4, digitVal_digitChar h1, digitVal_digitChar h2, digitVal_digitChar h3,
    digitVal_digitChar h4, and_self, if_true]
  congr 1
  omega

theorem parse2_pad2 {m : Nat} (h : m ≤ 99) :
    parse2 (digitChar (m / 10)) (digitChar (m % 10)) = some m := by
  have h1 : m / 10 ≤ 9 := by omega
  have h2 : m % 10 ≤ 9 := by omega
  simp only [parse2, digitChar_isDigit h1, digitChar_isDigit h2,
    digitVal_digitChar h1, digitVal_digitChar h2, and_self, if_true]
  congr 1
  omega

theorem get_date_components_fmt8 {y m d : Nat}
    (hy : y ≤ 9999) (hm99 : m ≤ 99) (hd99 : d ≤ 99) :
    get_date_components (fmt8 y m d) = some (y, m, d, (m - 1) / 3 + 1) := by
  show get_date_components ⟨pad4 y ++ pad2 m ++ pad2 d⟩ = _
  simp only [get_date_components, pad4, pad2, List.cons_append, List.nil_append,
    parse4_pad4 hy, parse2_pad2 hm99, parse2_pad2 hd99, Option.bind_eq_bind,
    Option.some_bind]

theorem get_date_components_fmtISO {y m d : Nat}
    (hy1 : 1 ≤ y) (hy : y ≤ 9999) (hm1 : 1 ≤ m) (hm : m ≤ 12) (hd1 : 1 ≤ d)
    (hdm : d ≤ daysInMonth y m) :
    get_date_components (fmtISO y m d) = some (y, m, d, (m - 1) / 3 + 1) := by
  have hm99 : m ≤ 99 := by omega
  have hd99 : d ≤ 99 := by
    have := daysInMonth_le_31 y m; omega
  show get_date_components ⟨pad4 y ++ '-' :: pad2 m ++ '-' :: pad2 d⟩ = _
  simp only [get_date_components, pad4, pad2, List.cons_append, List.nil_append,
    parse4_pad4 hy, parse2_pad2 hm99, parse2_pad2 hd99, Option.bind_eq_bind,
    Option.some_bind]
  rw [if_pos]
  exact ⟨hy1, hm1, hm, hd1, hdm⟩

/-- **C7** — For every date string in 8-digit `YYYYMMDD` form or ISO
`YYYY-MM-DD` form, the date-component extraction returns the string's year,
month and day, and a quarter number equal to `((month-1)/3)+1` with integer
division (months 1–3 give quarter 1, 4–6 give 2, 7–9 give 3, 10–12 give 4). -/
theorem get_date_components_correct (y m d : Nat)
    (hy : y ≤ 9999) (hm1 : 1 ≤ m) (hm : m ≤ 12) (hd1 : 1 ≤ d) (hd : d ≤ 31) :
    get_date_components (fmt8 y m d) = some (y, m, d, (m - 1) / 3 + 1) ∧
    (1 ≤ y → d ≤ daysInMonth y m →
      get_date_components (fmtISO y m d) = some (y, m, d, (m - 1) / 3 + 1)) :=
  ⟨get_date_components_fmt8 hy (by omega) (by omega),
   fun hy1 hdm => get_date_components_fmtISO hy1 hy hm1 hm hd1 hdm⟩

/-- Witness for C7 at a concrete date. -/
theorem get_date_components_correct_witness :
    get_date_components (fmt8 2024 7 15) = some (2024, 7, 15, 3) ∧
    get_date_components (fmtISO 2024 7 15) = some (2024, 7, 15, 3) := by
  have h := get_date_components_correct 2024 7 15 (by decide) (by decide) (by decide)
    (by decide) (by decide)
  exact ⟨h.1, h.2 (by decide) (by decide)⟩

/-!
## `data_collectors.get_date_list`

The source parses both endpoints with `datetime.strptime(_, '%Y%m%d')` and
appends `current.strftime('%Y%m%d')` while `current <= end`, stepping with
`timedelta(days=1)`.  Dates are modeled by the proleptic Gregorian calendar;
parse failure (`strptime` raising) is modeled as `none`.  The `while` loop is
modeled with fuel `dateCode fn + 1 - dateCode st`, which bounds the iteration
count because each day step strictly increases `dateCode`.
-/

structure CalDate where
  year : Nat
  month : Nat
  day : Nat
deriving DecidableEq, Repr

/-- A calendar date `datetime` accepts: in-range month and day, year 1–9999. -/
def ValidDate (d : CalDate) : Prop :=
  1 ≤ d.year ∧ d.year ≤ 9999 ∧ 1 ≤ d.month ∧ d.month ≤ 12 ∧
    1 ≤ d.day ∧ d.day ≤ daysInMonth d.year d.month

instance (d : CalDate) : Decidable (ValidDate d) := by
  unfold ValidDate; infer_instance

/-- `timedelta(days=1)` addition. -/
def nextDay (d : CalDate) : CalDate :=
  if d.day < daysInMonth d.year d.month then ⟨d.year, d.month, d.day + 1⟩
  else if d.month < 12 then ⟨d.year, d.month + 1, 1⟩
  else ⟨d.year + 1, 1, 1⟩

/-- Numeric encoding whose order coincides with calendar order on valid
dates (months and days are below 100). -/
def dateCode (d : CalDate) : Nat := d.year * 10000 + d.month * 100 + d.day

/-- `datetime.strptime(s, '%Y%m%d')`: eight digits forming a valid date. -/
def parseYMD8 (s : String) : Option CalDate :=
  match s.data with
  | [a, b, c, d, e, f, g, h] => do
      let y ← parse4 a b c d
      let mo ← parse2 e f
      let da ← parse2 g h
      if 1 ≤ y ∧ 1 ≤ mo ∧ mo ≤ 12 ∧ 1 ≤ da ∧ da ≤ daysInMonth y mo then
        some ⟨y, mo, da⟩
      else none
  | _ => none

/-- `current.strftime('%Y%m%d')`. -/
def fmtDate (d : CalDate) : String := fmt8 d.year d.month d.day

def dateListLoop : Nat → CalDate → CalDate → List String
  | 0, _, _ => []
  | fuel + 1, cur, fin =>
      if dateCode cur ≤ dateCode fin then
        fmtDate cur :: dateListLoop fuel (nextDay cur) fin
      else []

def get_date_list (date_st date_fn : String) : Option (List String) := do
  let st ← parseYMD8 date_st
  let fn ← parseYMD8 date_fn
  some (dateListLoop (dateCode fn + 1 - dateCode st) st fn)

theorem dateCode_lt_nextDay {a : CalDate} (ha : ValidDate a) :
    dateCode a < dateCode (nextDay a) := by
  obtain ⟨h1, h2, h3, h4, h5, h6⟩ := ha
  have := daysInMonth_le_31 a.year a.month
  simp only [nextDay, dateCode]
  split_ifs <;> simp only [dateCode] <;> omega

theorem dateCode_inj {a b : CalDate} (ha : ValidDate a) (hb : ValidDate b)
    (h : dateCode a = dateCode b) : a = b := by
  obtain ⟨ha1, ha2, ha3, ha4, ha5, ha6⟩ := ha
  obtain ⟨hb1, hb2, hb3, hb4, hb5, hb6⟩ := hb
  have hda := daysInMonth_le_31 a.year a.month
  have hdb := daysInMonth_le_31 b.year b.month
  simp only [dateCode] at h
  have hy : a.year = b.year := by omega
  have hm : a.month = b.month := by omega
  have hd : a.day = b.day := by omega
  cases a; cases b; simp_all

theorem dateCode_nextDay_le {a b : CalDate} (ha : ValidDate a) (hb : ValidDate b)
    (h : dateCode a < dateCode b) : dateCode (nextDay a) ≤ dateCode b := by
  obtain ⟨ha1, ha2, ha3, ha4, ha5, ha6⟩ := ha
  obtain ⟨hb1, hb2, hb3, hb4, hb5, hb6⟩ := hb
  have hda := daysInMonth_le_31 a.year a.month
  have hdb := daysInMonth_le_31 b.year b.month
  simp only [dateCode] at *
  simp only [nextDay]
  split_ifs with h1 h2 <;> simp only [dateCode]
  · omega
  · by_cases hym : b.year = a.year ∧ b.month = a.month
    · have hdd : daysInMonth b.year b.month = daysInMonth a.year a.month := by
        rw [hym.1, hym.2]
      omega
    · omega
  · by_cases hym : b.year = a.year ∧ b.month = a.month
    · have hdd : daysInMonth b.year b.month = daysInMonth a.year a.month := by
        rw [hym.1, hym.2]
      omega
    · omega

theorem validDate_nextDay {a fin : CalDate} (ha : ValidDate a) (hfin : ValidDate fin)
    (hle : dateCode (nextDay a) ≤ dateCode fin) : ValidDate (nextDay a) := by
  obtain ⟨ha1, ha2, ha3, ha4, ha5, ha6⟩ := ha
  obtain ⟨hf1, hf2, hf3, hf4, hf5, hf6⟩ := hfin
  have hdf := daysInMonth_le_31 fin.year fin.month
  simp only [nextDay] at *
  split_ifs at hle ⊢ with h1 h2 <;>
    simp only [dateCode, ValidDate] at hle ⊢
  · exact ⟨ha1, by omega, ha3, ha4, by omega, h1⟩
  · exact ⟨ha1, by omega, by omega, by omega, le_refl 1, daysInMonth_pos _ _⟩
  · exact ⟨by omega, by omega, by omega, by omega, le_refl 1, daysInMonth_pos _ _⟩

theorem parseYMD8_fmtDate {d : CalDate} (h : ValidDate d) :
    parseYMD8 (fmtDate d) = some d := by
  obtain ⟨h1, h2, h3, h4, h5, h6⟩ := h
  have hm99 : d.month ≤ 99 := by omega
  have hd99 : d.day ≤ 99 := by
    have := daysInMonth_le_31 d.year d.month; omega
  show parseYMD8 ⟨pad4 d.year ++ pad2 d.month ++ pad2 d.day⟩ = some d
  simp only [parseYMD8, pad4, pad2, List.cons_append, List.nil_append,
    parse4_pad4 h2, parse2_pad2 hm99, parse2_pad2 hd99, Option.bind_eq_bind,
    Option.some_bind]
  rw [if_pos ⟨h1, h3, h4, h5, h6⟩]

/-- Two adjacent output entries of the date list: the second is the rendering
of the calendar successor of the first. -/
def consecutiveDates (a b : String) : Prop :=
  ∃ da, parseYMD8 a = some da ∧ b = fmtDate (nextDay da)

theorem dateListLoop_spec (fin : CalDate) (hfin : ValidDate fin) :
    ∀ fuel cur, ValidDate cur → dateCode cur ≤ dateCode fin →
      dateCode fin + 1 - dateCode cur ≤ fuel →
      (dateListLoop fuel cur fin).head? = some (fmtDate cur) ∧
      (dateListLoop fuel cur fin).getLast? = some (fmtDate fin) ∧
      List.Chain' consecutiveDates (dateListLoop fuel cur fin) ∧
      ∀ x ∈ dateListLoop fuel cur fin, ∃ dx, ValidDate dx ∧ x = fmtDate dx := by
  intro fuel
  induction fuel with
  | zero => intro cur _ h1 h2; omega
  | succ n ih =>
    intro cur hcur hle hfuel
    rw [dateListLoop, if_pos hle]
    by_cases heq : dateCode cur = dateCode fin
    · have hcf : cur = fin := dateCode_inj hcur hfin heq
      have hgt : dateCode fin < dateCode (nextDay cur) := by
        have := dateCode_lt_nextDay hcur; omega
      have hnil : dateListLoop n (nextDay cur) fin = [] := by
        cases n with
        | zero => rfl
        | succ k => rw [dateListLoop, if_neg (by omega)]
      rw [hnil]
      refine ⟨rfl, by rw [hcf]; rfl, List.chain'_singleton _, ?_⟩
      intro x hx
      rcases List.mem_singleton.mp hx with rfl
      exact ⟨cur, hcur, rfl⟩
    · have hlt : dateCode cur < dateCode fin := lt_of_le_of_ne hle heq
      have hnle : dateCode (nextDay cur) ≤ dateCode fin :=
        dateCode_nextDay_le hcur hfin hlt
      have hnv : ValidDate (nextDay cur) := validDate_nextDay hcur hfin hnle
      have hnfuel : dateCode fin + 1 - dateCode (nextDay cur) ≤ n := by
        have := dateCode_lt_nextDay hcur; omega
      obtain ⟨hh, hl, hc, hall⟩ := ih (nextDay cur) hnv hnle hnfuel
      obtain ⟨r, t, hrt⟩ : ∃ r t, dateListLoop n (nextDay cur) fin = r :: t := by
        cases hx : dateListLoop n (nextDay cur) fin with
        | nil => rw [hx] at hh; simp at hh
        | cons r t => exact ⟨r, t, rfl⟩
      have hr : r = fmtDate (nextDay cur) := by
        rw [hrt] at hh; simpa using hh
      refine ⟨rfl, ?_, ?_, ?_⟩
      · rw [hrt, List.getLast?_cons_cons, ← hrt]; exact hl
      · rw [hrt, List.chain'_cons, ← hrt]
        refine ⟨⟨cur, parseYMD8_fmtDate hcur, by rw [hr]⟩, hc⟩
      · intro x hx
        rcases List.mem_cons.mp hx with rfl | hx
        · exact ⟨cur, hcur, rfl⟩
        · exact hall x hx

/-- **C10** — For every pair of `YYYYMMDD` date strings with start not after
finish, `get_date_list` returns exactly the consecutive calendar days from the
start date through the finish date inclusive, in ascending order (characterized
by: the head is the start date, the last entry is the finish date, and each
entry is followed by the rendering of its calendar successor), each formatted
as `YYYYMMDD`; when the start date is after the finish date it returns the
empty list. -/
theorem get_date_list_correct (st fn : CalDate)
    (hst : ValidDate st) (hfn : ValidDate fn) :
    (dateCode fn < dateCode st →
      get_date_list (fmtDate st) (fmtDate fn) = some []) ∧
    (dateCode st ≤ dateCode fn →
      ∃ l, get_date_list (fmtDate st) (fmtDate fn) = some l ∧
        l.head? = some (fmtDate st) ∧ l.getLast? = some (fmtDate fn) ∧
        List.Chain' consecutiveDates l ∧
        ∀ x ∈ l, ∃ dx, ValidDate dx ∧ x = fmtDate dx) := by
  constructor
  · intro h
    have hfuel : dateCode fn + 1 - dateCode st = 0 := by omega
    simp only [get_date_list, parseYMD8_fmtDate hst, parseYMD8_fmtDate hfn,
      Option.bind_eq_bind, Option.some_bind, hfuel]
    rfl
  · intro h
    obtain ⟨hh, hl, hc, hall⟩ :=
      dateListLoop_spec fn hfn (dateCode fn + 1 - dateCode st) st hst h (le_refl _)
    refine ⟨dateListLoop (dateCode fn + 1 - dateCode st) st fn, ?_, hh, hl, hc, hall⟩
    simp only [get_date_list, parseYMD8_fmtDate hst, parseYMD8_fmtDate hfn,
      Option.bind_eq_bind, Option.some_bind]

/-- Witness for C10 across a leap-February month boundary. -/
theorem get_date_list_correct_witness :
    (get_date_list (fmtDate ⟨2024, 3, 1⟩) (fmtDate ⟨2024, 2, 28⟩) = some []) ∧
    (∃ l, get_date_list (fmtDate ⟨2024, 2, 28⟩) (fmtDate ⟨2024, 3, 1⟩) = some l ∧
      l.head? = some (fmtDate ⟨2024, 2, 28⟩) ∧ l.getLast? = some (fmtDate ⟨2024, 3, 1⟩) ∧
      List.Chain' consecutiveDates l ∧
      ∀ x ∈ l, ∃ dx, ValidDate dx ∧ x = fmtDate dx) := by
  have h1 := get_date_list_correct ⟨2024, 3, 1⟩ ⟨2024, 2, 28⟩ (by decide) (by decide)
  have h2 := get_date_list_correct ⟨2024, 2, 28⟩ ⟨2024, 3, 1⟩ (by decide) (by decide)
  exact ⟨h1.1 (by decide), h2.2 (by decide)⟩

/-!
## Records and the query synthesizer (`stock_knowledge_graph.py`)

Python dicts are association lists of `DVal` values; a `dict[k]` access that
can raise `KeyError` is an `Except` failure — the spec's
`MalformedRecordError` — while `dict.get(k, default)` is a defaulted lookup.
An f-string placeholder `{v}` renders `str(v)`; a query fragment `'{v}'`
becomes a quoted Cypher string literal (`PVal.qs`) and a bare `{v}` becomes a
bare literal (`PVal.bare`).  Apostrophes are written `\x27` below.
-/

inductive DVal where
  | str (s : String)
  | int (n : Int)
  | list (l : List String)
  | none
deriving DecidableEq, Repr

/-- Python `str()` of a record value. -/
def pyStr : DVal → String
  | .str s => s
  | .int n => toString n
  | .list l => "[" ++ String.intercalate ", " (l.map (fun s => "\x27" ++ s ++ "\x27")) ++ "]"
  | .none => "None"

/-- Replace every apostrophe by backslash-apostrophe (structural form of
`str.replace` so it evaluates inside the kernel). -/
def escapeChars : List Char → List Char
  | [] => []
  | c :: cs =>
      if c = '\x27' then '\\' :: '\x27' :: escapeChars cs
      else c :: escapeChars cs

/-- The source's `escape_string`: `''` for `None`, else
`str(s).replace("'", "\\'")`. -/
def escape_string (v : DVal) : String :=
  match v with
  | .none => ""
  | v => String.mk (escapeChars (pyStr v).data)

def Dict := List (String × DVal)

def dictGetD (d : Dict) (k : String) (dflt : DVal) : DVal :=
  (List.lookup k d).getD dflt

inductive SynthError where
  | malformedRecord (key : String)
deriving DecidableEq, Repr

/-- A required `dict[k]` access: raises (`MalformedRecordError`) when `k` is
absent. -/
def reqGet (d : Dict) (k : String) : Except SynthError DVal :=
  match List.lookup k d with
  | some v => .ok v
  | Option.none => .error (.malformedRecord k)

/-- A Cypher literal produced by interpolation. -/
inductive PVal where
  | qs (s : String)
  | bare (s : String)
deriving DecidableEq, Repr

/-- Structured form of `_create_cypher_query_company`'s query text: the two
node-merge specs; the `BELONGS_TO` edge merge is implied by the fixed tail of
the query. -/
structure CompanyQuery where
  companyProps : List (String × PVal)
  sectorProps : List (String × PVal)
deriving DecidableEq, Repr

/-- `_create_cypher_query_company` (source lines 268–309): compete lists are
joined when list-valued, then every f-string placeholder is evaluated in
textual order — a missing required key raises before any query is produced. -/
def create_cypher_query_company (company_dict : Dict) :
    Except SynthError CompanyQuery := do
  let nmLi0 := dictGetD company_dict "compete_stock_nm_li" (.str "")
  let cdLi0 := dictGetD company_dict "compete_stock_code_li" (.str "")
  let nmLi := match nmLi0 with
    | .list l => DVal.str (String.intercalate ", " l)
    | v => v
  let cdLi := match cdLi0 with
    | .list l => DVal.str (String.intercalate ", " l)
    | v => v
  let stock_code ← reqGet company_dict "stock_code"
  let stock_nm ← reqGet company_dict "stock_nm"
  let stock_abbrv ← reqGet company_dict "stock_abbrv"
  let stock_nm_eng ← reqGet company_dict "stock_nm_eng"
  let listing_dt ← reqGet company_dict "listing_dt"
  let outstanding_shares ← reqGet company_dict "outstanding_shares"
  let kospi200_item_yn ← reqGet company_dict "kospi200_item_yn"
  let stock_sector_nm ← reqGet company_dict "stock_sector_nm"
  pure {
    companyProps := [
      ("stock_code", .qs (pyStr stock_code)),
      ("stock_nm", .qs (escape_string stock_nm)),
      ("stock_abbrv", .qs (escape_string stock_abbrv)),
      ("stock_nm_eng", .qs (escape_string stock_nm_eng)),
      ("listing_dt", .qs (pyStr listing_dt)),
      ("outstanding_shares", .bare (pyStr outstanding_shares)),
      ("kospi200_item_yn", .qs (pyStr kospi200_item_yn)),
      ("compete_stock_nm_li", .qs (escape_string nmLi)),
      ("compete_stock_code_li", .qs (escape_string cdLi))],
    sectorProps := [("stock_sector_nm", .qs (escape_string stock_sector_nm))] }

/-- Structured form of `_create_cypher_query_daily_data`'s query text.  The
relationship-merge tail of the query is fixed and is interpreted by
`applyDailyQuery` below. -/
structure DailyQuery where
  date : String
  year : Nat
  month : Nat
  day : Nat
  quarter : Nat
  spProps : List (String × PVal)
  indProps : List (String × PVal)
  fsProps : Option (List (String × PVal))
  company_code : String
deriving DecidableEq, Repr

/-- `_create_cypher_query_daily_data` (source lines 311–404): on date-parse
failure the source logs and returns `""` (no write), modeled as `.ok none`;
otherwise the placeholders are evaluated in textual order (the four price
fields and the company stock code are required accesses, indicator and
financial fields default to `0` via `.get`). -/
def create_cypher_query_daily_data (date : String) (company_dict : Dict)
    (stock_price_dict : Dict) (fs_dict : Option Dict) :
    Except SynthError (Option DailyQuery) :=
  match get_date_components date with
  | Option.none => .ok Option.none
  | some (year, month, day, quarter) => do
    let hgpr ← reqGet stock_price_dict "stck_hgpr"
    let lwpr ← reqGet stock_price_dict "stck_lwpr"
    let oprc ← reqGet stock_price_dict "stck_oprc"
    let clpr ← reqGet stock_price_dict "stck_clpr"
    let pbr := dictGetD stock_price_dict "pbr" (.int 0)
    let per := dictGetD stock_price_dict "per" (.int 0)
    let eps := dictGetD stock_price_dict "eps" (.int 0)
    let stock_code ← reqGet company_dict "stock_code"
    let fsProps := match fs_dict with
      | Option.none => Option.none
      | some fsd => some [
          ("revenue", PVal.bare (pyStr (dictGetD fsd "revenue" (.int 0)))),
          ("operating_income", PVal.bare (pyStr (dictGetD fsd "operating_income" (.int 0)))),
          ("net_income", PVal.bare (pyStr (dictGetD fsd "net_income" (.int 0)))),
          ("total_assets", PVal.bare (pyStr (dictGetD fsd "total_assets" (.int 0)))),
          ("total_liabilities", PVal.bare (pyStr (dictGetD fsd "total_liabilities" (.int 0)))),
          ("total_equity", PVal.bare (pyStr (dictGetD fsd "total_equity" (.int 0)))),
          ("capital_stock", PVal.bare (pyStr (dictGetD fsd "capital_stock" (.int 0))))]
    pure (some {
      date := date, year := year, month := month, day := day, quarter := quarter,
      spProps := [
        ("stck_hgpr", PVal.bare (pyStr hgpr)),
        ("stck_lwpr", PVal.bare (pyStr lwpr)),
        ("stck_oprc", PVal.bare (pyStr oprc)),
        ("stck_clpr", PVal.bare (pyStr clpr))],
      indProps := [
        ("pbr", PVal.bare (pyStr pbr)),
        ("per", PVal.bare (pyStr per)),
        ("eps", PVal.bare (pyStr eps))],
      fsProps := fsProps,
      company_code := pyStr stock_code })

/-- **C5** — For every input record in which a required key (in particular the
stock code) is absent, the query synthesizer fails by raising
`MalformedRecordError` rather than producing a write operation (for the daily
query: on any parseable date, some required-key access fails before a query is
produced). -/
theorem synthesizer_malformed_record :
    (∀ d : Dict, List.lookup "stock_code" d = Option.none →
      create_cypher_query_company d = .error (.malformedRecord "stock_code")) ∧
    (∀ (date : String) (cd pd : Dict) (fsd : Option Dict)
      (comps : Nat × Nat × Nat × Nat),
      get_date_components date = some comps →
      List.lookup "stock_code" cd = Option.none →
      ∃ k, create_cypher_query_daily_data date cd pd fsd =
        .error (.malformedRecord k)) := by
  constructor
  · intro d h
    simp only [create_cypher_query_company, reqGet, h]
    rfl
  · intro date cd pd fsd comps hcomp hsc
    obtain ⟨y, m, dd, q⟩ := comps
    rcases hp1 : List.lookup "stck_hgpr" pd with _ | v1
    · exact ⟨"stck_hgpr", by
        simp only [create_cypher_query_daily_data, hcomp, reqGet, hp1]; rfl⟩
    rcases hp2 : List.lookup "stck_lwpr" pd with _ | v2
    · exact ⟨"stck_lwpr", by
        simp only [create_cypher_query_daily_data, hcomp, reqGet, hp1, hp2]; rfl⟩
    rcases hp3 : List.lookup "stck_oprc" pd with _ | v3
    · exact ⟨"stck_oprc", by
        simp only [create_cypher_query_daily_data, hcomp, reqGet, hp1, hp2, hp3]; rfl⟩
    rcases hp4 : List.lookup "stck_clpr" pd with _ | v4
    · exact ⟨"stck_clpr", by
        simp only [create_cypher_query_daily_data, hcomp, reqGet, hp1, hp2, hp3, hp4]; rfl⟩
    exact ⟨"stock_code", by
      simp only [create_cypher_query_daily_data, hcomp, reqGet, hp1, hp2, hp3, hp4, hsc]; rfl⟩

/-- Witness for C5 on concrete records lacking the stock code. -/
theorem synthesizer_malformed_record_witness :
    create_cypher_query_company [("stock_nm", DVal.str "SampleCo")] =
      .error (.malformedRecord "stock_code") ∧
    ∃ k, create_cypher_query_daily_data "20240101"
        [("stock_nm", DVal.str "SampleCo")]
        [("stck_hgpr", DVal.str "70500"), ("stck_lwpr", DVal.str "69000"),
         ("stck_oprc", DVal.str "70000"), ("stck_clpr", DVal.str "70300")]
        Option.none = .error (.malformedRecord k) := by
  refine ⟨synthesizer_malformed_record.1 _ rfl, ?_⟩
  exact synthesizer_malformed_record.2 "20240101" _ _ _ (2024, 1, 1, 1) rfl rfl

/-!
## The graph store

Nodes carry a label and a property map; edges are directed and typed.  `MERGE`
on a node pattern matches an existing node with the same label and property
map (this is how Cypher `MERGE` with a full inline map behaves) or creates a
fresh one; `MERGE` on a relationship adds the edge only when absent.  `MATCH`
on a unique-keyed `Company` is resolved with `find?` (the store enforces a
uniqueness constraint on `Company.stock_code`).
-/

inductive Label where
  | company | sector | date | quarter | year | stockPrice | indicator | finStmts
deriving DecidableEq, Repr

inductive RelType where
  | RECORDED_ON | MEASURED_ON | IN_QUARTER | IN_YEAR
  | HAS_STOCK_PRICE | HAS_INDICATOR | HAS_FINANCIAL_STATEMENTS
  | FOR_QUARTER | FOR_YEAR | BELONGS_TO | COMPETES_WITH
deriving DecidableEq, Repr

structure GNode where
  nid : Nat
  label : Label
  props : List (String × PVal)
deriving DecidableEq, Repr

structure Graph where
  nodes : List GNode
  edges : List (Nat × RelType × Nat)
deriving DecidableEq, Repr

def Graph.empty : Graph := ⟨[], []⟩

def freshId (g : Graph) : Nat := g.nodes.foldl (fun m n => max m n.nid) 0 + 1

def mergeNode (g : Graph) (l : Label) (p : List (String × PVal)) : Graph × Nat :=
  match g.nodes.find? (fun n => decide (n.label = l ∧ n.props = p)) with
  | some n => (g, n.nid)
  | Option.none =>
      let i := freshId g
      ({ g with nodes := g.nodes ++ [{ nid := i, label := l, props := p }] }, i)

def mergeEdge (g : Graph) (e : Nat × RelType × Nat) : Graph :=
  if e ∈ g.edges then g else { g with edges := g.edges ++ [e] }

def lookupProp (n : GNode) (k : String) : Option PVal := List.lookup k n.props

/-- `MATCH (c:Company {stock_code: code})` under the uniqueness constraint. -/
def findCompany (g : Graph) (code : String) : Option Nat :=
  (g.nodes.find? (fun n =>
    decide (n.label = Label.company ∧ lookupProp n "stock_code" = some (.qs code)))).map
    (fun n => n.nid)

/-- Interpretation of `_create_cypher_query_company`'s query text. -/
def applyCompanyQuery (g : Graph) (q : CompanyQuery) : Graph :=
  let r1 := mergeNode g .company q.companyProps
  let r2 := mergeNode r1.1 .sector q.sectorProps
  mergeEdge r2.1 (r1.2, .BELONGS_TO, r2.2)

def dateProps (q : DailyQuery) : List (String × PVal) :=
  [("date", .qs q.date), ("year", .bare (toString q.year)),
   ("month", .bare (toString q.month)), ("day", .bare (toString q.day))]

def quarterProps (q : DailyQuery) : List (String × PVal) :=
  [("year", .bare (toString q.year)), ("quarter", .bare (toString q.quarter))]

def yearProps (q : DailyQuery) : List (String × PVal) :=
  [("year", .bare (toString q.year))]

/-- The fixed relationship-merge tail of the daily query (source lines
385–402). -/
def dailyEdges (dId qId yId spId indId cId : Nat) (fsId : Option Nat) :
    List (Nat × RelType × Nat) :=
  [(spId, .RECORDED_ON, dId), (indId, .MEASURED_ON, dId),
   (dId, .IN_QUARTER, qId), (qId, .IN_YEAR, yId), (dId, .IN_YEAR, yId),
   (cId, .HAS_STOCK_PRICE, spId), (cId, .HAS_INDICATOR, indId)] ++
  (match fsId with
   | some f => [(f, .FOR_QUARTER, qId), (f, .FOR_YEAR, yId),
                (cId, .HAS_FINANCIAL_STATEMENTS, f)]
   | Option.none => [])

/-- Interpretation of `_create_cypher_query_daily_data`'s query text: the node
merges run first; if the `MATCH (Company …)` then finds no row, the
relationship merges do not run (Cypher semantics of `MATCH` after `MERGE`). -/
def applyDailyQuery (g : Graph) (q : DailyQuery) : Graph :=
  let r1 := mergeNode g .date (dateProps q)
  let r2 := mergeNode r1.1 .quarter (quarterProps q)
  let r3 := mergeNode r2.1 .year (yearProps q)
  let r4 := mergeNode r3.1 .stockPrice q.spProps
  let r5 := mergeNode r4.1 .indicator q.indProps
  let r6 : Graph × Option Nat := match q.fsProps with
    | Option.none => (r5.1, Option.none)
    | some p => ((mergeNode r5.1 .finStmts p).1, some (mergeNode r5.1 .finStmts p).2)
  match findCompany r6.1 q.company_code with
  | Option.none => r6.1
  | some cId => (dailyEdges r1.2 r2.2 r3.2 r4.2 r5.2 cId r6.2).foldl mergeEdge r6.1

/-!
## The recovery deletion queries (`run_graphdb.py` lines 69–103)

`cleanup_processed_data` / `cleanup_single_date_data` run, per date,

```
MATCH (d:Date {date: D})
OPTIONAL MATCH (d)-[:RECORDED_ON]->(sp:StockPrice)
OPTIONAL MATCH (sp)-[:HAS_STOCK_PRICE]->(i:Indicator)
OPTIONAL MATCH (i)-[:HAS_INDICATOR]->(fs:FinancialStatements)
DETACH DELETE sp, i, fs
DELETE d
```

The `OPTIONAL MATCH` rows are collected by following the written patterns; a
non-detach `DELETE d` on a node that still has relationships is a Cypher
runtime error, which rolls the statement back (graph unchanged) and is caught
by the surrounding `except`.
-/

def nodeLabel (g : Graph) (i : Nat) : Option Label :=
  (g.nodes.find? (fun n => decide (n.nid = i))).map (fun n => n.label)

def detachDelete (g : Graph) (victims : List Nat) : Graph :=
  { nodes := g.nodes.filter (fun n => decide (n.nid ∉ victims)),
    edges := g.edges.filter (fun e => decide (e.1 ∉ victims ∧ e.2.2 ∉ victims)) }

def cleanupDateQuery (g : Graph) (date : String) : Graph :=
  match g.nodes.find? (fun n =>
    decide (n.label = Label.date ∧ lookupProp n "date" = some (.qs date))) with
  | Option.none => g
  | some d =>
      let sps := (g.edges.filter (fun e =>
        decide (e.1 = d.nid ∧ e.2.1 = RelType.RECORDED_ON ∧
          nodeLabel g e.2.2 = some .stockPrice))).map (fun e => e.2.2)
      let inds := (g.edges.filter (fun e =>
        decide (e.1 ∈ sps ∧ e.2.1 = RelType.HAS_STOCK_PRICE ∧
          nodeLabel g e.2.2 = some .indicator))).map (fun e => e.2.2)
      let fss := (g.edges.filter (fun e =>
        decide (e.1 ∈ inds ∧ e.2.1 = RelType.HAS_INDICATOR ∧
          nodeLabel g e.2.2 = some .finStmts))).map (fun e => e.2.2)
      let g1 := detachDelete g (sps ++ inds ++ fss)
      if g1.edges.any (fun e => e.1 == d.nid || e.2.2 == d.nid) then g
      else { nodes := g1.nodes.filter (fun n => decide (n.nid ≠ d.nid)),
             edges := g1.edges }

def cleanup_processed_data (g : Graph) (dates : List String) : Graph :=
  dates.foldl cleanupDateQuery g

def countLabel (g : Graph) (l : Label) : Nat :=
  (g.nodes.filter (fun n => decide (n.label = l))).length

/-! ### A concrete one-company, one-date run for the recovery claim -/

def c1CompanyDict : Dict :=
  [("stock_code", .str "000001"), ("stock_nm", .str "SampleCo"),
   ("stock_abbrv", .str "Sample"), ("stock_nm_eng", .str "SampleCo Ltd"),
   ("listing_dt", .str "2000-01-01"), ("outstanding_shares", .int 1000),
   ("kospi200_item_yn", .str "N"), ("stock_sector_nm", .str "Tech")]

def c1PriceDict : Dict :=
  [("stck_hgpr", .str "70500"), ("stck_lwpr", .str "69000"),
   ("stck_oprc", .str "70000"), ("stck_clpr", .str "70300"),
   ("pbr", .str "1.1"), ("per", .str "12.3"), ("eps", .str "5000")]

def c1FsDict : Dict :=
  [("stock_code", .str "000001"), ("year", .int 2023), ("quarter", .str "4"),
   ("revenue", .int 0), ("operating_income", .int 0), ("net_income", .int 0),
   ("total_assets", .int 0), ("total_liabilities", .int 0),
   ("total_equity", .int 0), ("capital_stock", .int 0)]

/-- The one-time step's graph: one company with its sector. -/
def c1BaseGraph : Graph :=
  match create_cypher_query_company c1CompanyDict with
  | .ok q => applyCompanyQuery Graph.empty q
  | .error _ => Graph.empty

/-- The graph after the daily write for `20240101`. -/
def c1WrittenGraph : Graph :=
  match create_cypher_query_daily_data "20240101" c1CompanyDict c1PriceDict
      (some c1FsDict) with
  | .ok (some q) => applyDailyQuery c1BaseGraph q
  | _ => c1BaseGraph

/-- **C1** — evaluation of the recovery routine at a failing input.  The claim
says that after recovery zero `Date`/`StockPrice`/`Indicator`/
`FinancialStatements` nodes remain for the processed date `20240101`; in fact
the cleanup query's patterns (`(d)-[:RECORDED_ON]->(sp:StockPrice)`,
`(sp)-[:HAS_STOCK_PRICE]->(i)`, `(i)-[:HAS_INDICATOR]->(fs)`) run opposite to
the edges the daily write created (`(sp)-[:RECORDED_ON]->(d)`,
`(Company)-[:HAS_STOCK_PRICE]->(sp)`, `(Company)-[:HAS_INDICATOR]->(i)`), so
nothing is matched for deletion and the plain `DELETE d` of the
still-connected `Date` node errors: the graph is left unchanged, with all four
node kinds still present. -/
theorem cleanup_processed_data_deletes_nothing :
    countLabel c1WrittenGraph .stockPrice = 1 ∧
    countLabel c1WrittenGraph .indicator = 1 ∧
    countLabel c1WrittenGraph .finStmts = 1 ∧
    countLabel c1WrittenGraph .date = 1 ∧
    cleanup_processed_data c1WrittenGraph ["20240101"] = c1WrittenGraph := by
  decide

/-!
## `data_collectors.OpenDartCollector.get_financial_statements`

`dart.finstate` is an external API call, passed in as a function returning an
optional row set (`None`, an exception, and an empty frame all behave as "no
data" in the source's loop).  The loop walks the candidate reporting quarters
of `_get_quarter_list` and returns the first extractable record; when every
candidate fails it returns a zero-filled record carrying the *last* candidate's
`bsns_year`/`quarter_nm` (the Python loop variables leak out of the loop).
-/

structure DartRow where
  account_nm : String
  fs_nm : String
  thstrm_amount : String
deriving DecidableEq, Repr

def parseNatChars (cs : List Char) : Option Nat :=
  if cs.isEmpty then Option.none
  else if cs.all Char.isDigit then
    some (cs.foldl (fun a c => a * 10 + digitVal c) 0)
  else Option.none

/-- Python `int()` on a (possibly signed) digit string. -/
def parseIntChars : List Char → Option Int
  | '-' :: cs => (parseNatChars cs).map (fun n => -(n : Int))
  | cs => (parseNatChars cs).map (fun n => (n : Int))

/-- `int(value.replace(',', ''))` with the source's `except: 0` fallback. -/
def parseAmount (s : String) : Int :=
  (parseIntChars (s.data.filter (fun c => decide (c ≠ ',')))).getD 0

/-- `_get_quarter_list`: candidate `(bsns_year, reprt_code, quarter_nm)`
triples for a `YYYYMMDD` date, most recent first, always ending with the
previous year's annual report. -/
def get_quarter_list (date : String) : Option (List (Nat × String × String)) :=
  match date.data with
  | a :: b :: c :: d :: e :: f :: _ => do
      let year ← parse4 a b c d
      let month ← parse2 e f
      if month = 1 ∨ month = 2 ∨ month = 3 then
        some [(year - 1, "11011", "4")]
      else if month = 4 ∨ month = 5 ∨ month = 6 then
        some [(year, "11013", "1"), (year - 1, "11011", "4")]
      else if month = 7 ∨ month = 8 ∨ month = 9 then
        some [(year, "11012", "2"), (year, "11013", "1"), (year - 1, "11011", "4")]
      else
        some [(year, "11014", "3"), (year, "11012", "2"), (year, "11013", "1"),
              (year - 1, "11011", "4")]
  | _ => Option.none

/-- One account's amount: prefer the consolidated statement
(`연결재무제표`), fall back to the standalone one (`재무제표`), default `0`. -/
def extractAmount (dart_df : List DartRow) (col_nm : String) : Int :=
  let vals := (dart_df.filter (fun r =>
    decide (r.account_nm = col_nm ∧ r.fs_nm = "연결재무제표"))).map
    (fun r => r.thstrm_amount)
  let vals := if vals.isEmpty then
      (dart_df.filter (fun r =>
        decide (r.account_nm = col_nm ∧ r.fs_nm = "재무제표"))).map
        (fun r => r.thstrm_amount)
    else vals
  match vals with
  | v :: _ => parseAmount v
  | [] => 0

structure FsRecord where
  stock_code : String
  year : Nat
  quarter : String
  revenue : Int
  operating_income : Int
  net_income : Int
  total_assets : Int
  total_liabilities : Int
  total_equity : Int
  capital_stock : Int
deriving DecidableEq, Repr

def extractFs (stock_code : String) (year : Nat) (quarter_nm : String)
    (df : List DartRow) : FsRecord :=
  { stock_code := stock_code, year := year, quarter := quarter_nm,
    revenue := extractAmount df "매출액",
    operating_income := extractAmount df "영업이익",
    net_income := extractAmount df "당기순이익",
    total_assets := extractAmount df "자산총계",
    total_liabilities := extractAmount df "부채총계",
    total_equity := extractAmount df "자본총계",
    capital_stock := extractAmount df "자본금" }

/-- The zero-filled sentinel record. -/
def zeroFs (stock_code : String) (year : Nat) (quarter_nm : String) : FsRecord :=
  { stock_code := stock_code, year := year, quarter := quarter_nm,
    revenue := 0, operating_income := 0, net_income := 0, total_assets := 0,
    total_liabilities := 0, total_equity := 0, capital_stock := 0 }

/-- One candidate-quarter attempt: `None`, an exception, or an empty frame
all mean "continue". -/
def fsTry (finstate : String → Nat → String → Option (List DartRow))
    (stock_code : String) (q : Nat × String × String) : Option FsRecord :=
  match finstate stock_code q.1 q.2.1 with
  | Option.none => Option.none
  | some df => if df.isEmpty then Option.none else some (extractFs stock_code q.1 q.2.2 df)

def fsLoop (finstate : String → Nat → String → Option (List DartRow))
    (stock_code : String) :
    Nat × String × String → List (Nat × String × String) → FsRecord
  | q, [] => (fsTry finstate stock_code q).getD (zeroFs stock_code q.1 q.2.2)
  | q, q2 :: rest => (fsTry finstate stock_code q).getD (fsLoop finstate stock_code q2 rest)

def get_financial_statements (finstate : String → Nat → String → Option (List DartRow))
    (stock_code date : String) : Option FsRecord :=
  match get_quarter_list date with
  | Option.none => Option.none
  | some [] => Option.none
  | some (q :: rest) => some (fsLoop finstate stock_code q rest)

/-- `fs_data.iloc[0].to_dict()` on the one-row frame built by the source. -/
def fsRecordToDict (r : FsRecord) : Dict :=
  [("stock_code", .str r.stock_code), ("year", .int (r.year : Int)),
   ("quarter", .str r.quarter), ("revenue", .int r.revenue),
   ("operating_income", .int r.operating_income),
   ("net_income", .int r.net_income), ("total_assets", .int r.total_assets),
   ("total_liabilities", .int r.total_liabilities),
   ("total_equity", .int r.total_equity), ("capital_stock", .int r.capital_stock)]

theorem fsLoop_all_none (finstate : String → Nat → String → Option (List DartRow))
    (sc : String) :
    ∀ (rest : List (Nat × String × String)) (q qlast : Nat × String × String),
      (∀ x ∈ q :: rest, fsTry finstate sc x = Option.none) →
      (q :: rest).getLast? = some qlast →
      fsLoop finstate sc q rest = zeroFs sc qlast.1 qlast.2.2 := by
  intro rest
  induction rest with
  | nil =>
      intro q qlast hnone hlast
      have hq := hnone q (List.mem_cons_self q [])
      simp only [List.getLast?_singleton, Option.some.injEq] at hlast
      subst hlast
      simp [fsLoop, hq]
  | cons q2 rest ih =>
      intro q qlast hnone hlast
      have hq := hnone q (List.mem_cons_self q (q2 :: rest))
      rw [List.getLast?_cons_cons] at hlast
      simp only [fsLoop, hq, Option.getD_none]
      exact ih q2 qlast (fun x hx => hnone x (List.mem_cons_of_mem q hx)) hlast

/-! ## MERGE lemmas -/

theorem mergeNode_edges (g : Graph) (l : Label) (p : List (String × PVal)) :
    (mergeNode g l p).1.edges = g.edges := by
  rcases h : g.nodes.find? (fun nd => decide (nd.label = l ∧ nd.props = p)) with _ | nd <;>
    simp only [mergeNode, h]

theorem mergeNode_preserves (g : Graph) (l : Label) (p : List (String × PVal))
    {n : GNode} (hn : n ∈ g.nodes) : n ∈ (mergeNode g l p).1.nodes := by
  rcases h : g.nodes.find? (fun nd => decide (nd.label = l ∧ nd.props = p)) with _ | nd
  · simp only [mergeNode, h]
    exact List.mem_append_left _ hn
  · simp only [mergeNode, h]
    exact hn

theorem mergeNode_mem (g : Graph) (l : Label) (p : List (String × PVal)) :
    ∃ n ∈ (mergeNode g l p).1.nodes,
      n.nid = (mergeNode g l p).2 ∧ n.label = l ∧ n.props = p := by
  rcases h : g.nodes.find? (fun nd => decide (nd.label = l ∧ nd.props = p)) with _ | nd
  · refine ⟨⟨freshId g, l, p⟩, ?_, ?_, rfl, rfl⟩
    · simp only [mergeNode, h]
      exact List.mem_append_right _ (List.mem_singleton.mpr rfl)
    · simp only [mergeNode, h]
  · have hmem := List.mem_of_find?_eq_some h
    have hp := List.find?_some h
    rw [decide_eq_true_eq] at hp
    refine ⟨nd, ?_, ?_, hp.1, hp.2⟩
    · simp only [mergeNode, h]
      exact hmem
    · simp only [mergeNode, h]

theorem mergeEdge_nodes (g : Graph) (e : Nat × RelType × Nat) :
    (mergeEdge g e).nodes = g.nodes := by
  unfold mergeEdge; split <;> rfl

theorem mergeEdge_mem_self (g : Graph) (e : Nat × RelType × Nat) :
    e ∈ (mergeEdge g e).edges := by
  unfold mergeEdge; split
  · assumption
  · exact List.mem_append_right _ (List.mem_singleton.mpr rfl)

theorem mergeEdge_preserves (g : Graph) (e : Nat × RelType × Nat)
    {f : Nat × RelType × Nat} (h : f ∈ g.edges) : f ∈ (mergeEdge g e).edges := by
  unfold mergeEdge; split
  · exact h
  · exact List.mem_append_left _ h

theorem foldl_mergeEdge_nodes (es : List (Nat × RelType × Nat)) (g : Graph) :
    (es.foldl mergeEdge g).nodes = g.nodes := by
  induction es generalizing g with
  | nil => rfl
  | cons e es ih => rw [List.foldl_cons, ih, mergeEdge_nodes]

theorem foldl_mergeEdge_mem (es : List (Nat × RelType × Nat)) (g : Graph)
    (e : Nat × RelType × Nat) (h : e ∈ es ∨ e ∈ g.edges) :
    e ∈ (es.foldl mergeEdge g).edges := by
  induction es generalizing g with
  | nil =>
      rcases h with h | h
      · simp at h
      · exact h
  | cons x es ih =>
      rw [List.foldl_cons]
      rcases h with h | h
      · rcases List.mem_cons.mp h with rfl | h
        · exact ih _ (Or.inr (mergeEdge_mem_self g e))
        · exact ih _ (Or.inl h)
      · exact ih _ (Or.inr (mergeEdge_preserves g x h))

theorem findCompany_exists {g : Graph} {code : String}
    (h : ∃ n ∈ g.nodes, n.label = Label.company ∧
      lookupProp n "stock_code" = some (.qs code)) :
    ∃ cId, findCompany g code = some cId := by
  obtain ⟨n, hn, h1, h2⟩ := h
  have hs : (g.nodes.find? (fun nd => decide (nd.label = Label.company ∧
      lookupProp nd "stock_code" = some (.qs code)))).isSome := by
    rw [List.find?_isSome]
    exact ⟨n, hn, by rw [decide_eq_true_eq]; exact ⟨h1, h2⟩⟩
  obtain ⟨nd, hnd⟩ := Option.isSome_iff_exists.mp hs
  refine ⟨nd.nid, ?_⟩
  unfold findCompany
  rw [hnd]
  rfl

/-- When the daily query carries a financial-statements node spec and the
company exists, the written graph contains the `FinancialStatements` node with
exactly those properties, the Quarter and Year nodes derived from the date,
and the `FOR_QUARTER` / `FOR_YEAR` edges between them. -/
theorem applyDailyQuery_fs_linked (g : Graph) (dq : DailyQuery)
    (fp : List (String × PVal)) (hfs : dq.fsProps = some fp)
    (hc : ∃ n ∈ g.nodes, n.label = Label.company ∧
      lookupProp n "stock_code" = some (.qs dq.company_code)) :
    ∃ fsId qId yId,
      (∃ n ∈ (applyDailyQuery g dq).nodes,
        n.nid = fsId ∧ n.label = Label.finStmts ∧ n.props = fp) ∧
      (∃ n ∈ (applyDailyQuery g dq).nodes,
        n.nid = qId ∧ n.label = Label.quarter ∧ n.props = quarterProps dq) ∧
      (∃ n ∈ (applyDailyQuery g dq).nodes,
        n.nid = yId ∧ n.label = Label.year ∧ n.props = yearProps dq) ∧
      (fsId, RelType.FOR_QUARTER, qId) ∈ (applyDailyQuery g dq).edges ∧
      (fsId, RelType.FOR_YEAR, yId) ∈ (applyDailyQuery g dq).edges := by
  set g1 := (mergeNode g Label.date (dateProps dq)).1 with hg1
  set dId := (mergeNode g Label.date (dateProps dq)).2 with hdId
  set g2 := (mergeNode g1 Label.quarter (quarterProps dq)).1 with hg2
  set qId := (mergeNode g1 Label.quarter (quarterProps dq)).2 with hqId
  set g3 := (mergeNode g2 Label.year (yearProps dq)).1 with hg3
  set yId := (mergeNode g2 Label.year (yearProps dq)).2 with hyId
  set g4 := (mergeNode g3 Label.stockPrice dq.spProps).1 with hg4
  set spId := (mergeNode g3 Label.stockPrice dq.spProps).2 with hspId
  set g5 := (mergeNode g4 Label.indicator dq.indProps).1 with hg5
  set indId := (mergeNode g4 Label.indicator dq.indProps).2 with hindId
  set g6 := (mergeNode g5 Label.finStmts fp).1 with hg6
  set fsId := (mergeNode g5 Label.finStmts fp).2 with hfsId
  obtain ⟨cn, hcn, hcl, hcp⟩ := hc
  have hc6 : cn ∈ g6.nodes :=
    mergeNode_preserves _ _ _ (mergeNode_preserves _ _ _ (mergeNode_preserves _ _ _
      (mergeNode_preserves _ _ _ (mergeNode_preserves _ _ _
        (mergeNode_preserves _ _ _ hcn)))))
  obtain ⟨cId, hcid⟩ := findCompany_exists ⟨cn, hc6, hcl, hcp⟩
  have happ : applyDailyQuery g dq =
      (dailyEdges dId qId yId spId indId cId (some fsId)).foldl mergeEdge g6 := by
    simp only [applyDailyQuery, hfs, ← hg1, ← hdId, ← hg2, ← hqId, ← hg3, ← hyId,
      ← hg4, ← hspId, ← hg5, ← hindId, ← hg6, ← hfsId, hcid]
  obtain ⟨nf, hnf, hnfid, hnfl, hnfp⟩ := mergeNode_mem g5 Label.finStmts fp
  obtain ⟨nq, hnq, hnqid, hnql, hnqp⟩ := mergeNode_mem g1 Label.quarter (quarterProps dq)
  obtain ⟨ny, hny, hnyid, hnyl, hnyp⟩ := mergeNode_mem g2 Label.year (yearProps dq)
  have hnq6 : nq ∈ g6.nodes :=
    mergeNode_preserves _ _ _ (mergeNode_preserves _ _ _
      (mergeNode_preserves _ _ _ (mergeNode_preserves _ _ _ hnq)))
  have hny6 : ny ∈ g6.nodes :=
    mergeNode_preserves _ _ _ (mergeNode_preserves _ _ _ (mergeNode_preserves _ _ _ hny))
  have hnodes : (applyDailyQuery g dq).nodes = g6.nodes := by
    rw [happ, foldl_mergeEdge_nodes]
  have hq_edge : (fsId, RelType.FOR_QUARTER, qId) ∈
      dailyEdges dId qId yId spId indId cId (some fsId) := by
    simp [dailyEdges]
  have hy_edge : (fsId, RelType.FOR_YEAR, yId) ∈
      dailyEdges dId qId yId spId indId cId (some fsId) := by
    simp [dailyEdges]
  refine ⟨fsId, qId, yId,
    ⟨nf, by rw [hnodes]; exact hnf, hnfid, hnfl, hnfp⟩,
    ⟨nq, by rw [hnodes]; exact hnq6, hnqid, hnql, hnqp⟩,
    ⟨ny, by rw [hnodes]; exact hny6, hnyid, hnyl, hnyp⟩,
    ?_, ?_⟩
  · rw [happ]; exact foldl_mergeEdge_mem _ _ _ (Or.inl hq_edge)
  · rw [happ]; exact foldl_mergeEdge_mem _ _ _ (Or.inl hy_edge)

/-! ## Claim C4: the zero-filled financial-statements sentinel -/

theorem get_quarter_list_fmt8 {y m d : Nat}
    (hy : y ≤ 9999) (hm99 : m ≤ 99) :
    ∃ q rest, get_quarter_list (fmt8 y m d) = some (q :: rest) ∧
      (q :: rest).getLast? = some (y - 1, "11011", "4") := by
  show ∃ q rest, get_quarter_list ⟨pad4 y ++ pad2 m ++ pad2 d⟩ = _ ∧ _
  simp only [get_quarter_list, pad4, pad2, List.cons_append, List.nil_append,
    parse4_pad4 hy, parse2_pad2 hm99, Option.bind_eq_bind, Option.some_bind]
  split_ifs
  · exact ⟨_, _, rfl, rfl⟩
  · exact ⟨_, _, rfl, rfl⟩
  · exact ⟨_, _, rfl, rfl⟩
  · exact ⟨_, _, rfl, rfl⟩

/-- The seven all-zero monetary properties of the sentinel
`FinancialStatements` node. -/
def sevenZeroFsProps : List (String × PVal) :=
  [("revenue", .bare "0"), ("operating_income", .bare "0"),
   ("net_income", .bare "0"), ("total_assets", .bare "0"),
   ("total_liabilities", .bare "0"), ("total_equity", .bare "0"),
   ("capital_stock", .bare "0")]

/-- **C4** (amended) — For every company that has a price record for a date
but no financial-statement data for any candidate quarter of that date, the
pipeline produces a `FinancialStatements` node whose seven monetary fields are
all `0`, and that node is linked via `FOR_QUARTER` and `FOR_YEAR` to the
Quarter and Year nodes derived from the *date itself* (the date's calendar
year and quarter `((month-1)/3)+1`) — not to the reporting quarter carried in
the sentinel record, which is the previous year's Q4. -/
theorem fs_sentinel_all_zero_linked_to_date_quarter
    (finstate : String → Nat → String → Option (List DartRow))
    (g : Graph) (company_dict price_dict : Dict)
    (y m d : Nat) (hy : y ≤ 9999) (hm99 : m ≤ 99) (hd99 : d ≤ 99)
    (code : DVal) (hcode : List.lookup "stock_code" company_dict = some code)
    (v1 v2 v3 v4 : DVal)
    (hp1 : List.lookup "stck_hgpr" price_dict = some v1)
    (hp2 : List.lookup "stck_lwpr" price_dict = some v2)
    (hp3 : List.lookup "stck_oprc" price_dict = some v3)
    (hp4 : List.lookup "stck_clpr" price_dict = some v4)
    (hnone : ∀ q ∈ (get_quarter_list (fmt8 y m d)).getD [],
      fsTry finstate (pyStr code) q = Option.none)
    (hc : ∃ n ∈ g.nodes, n.label = Label.company ∧
      lookupProp n "stock_code" = some (.qs (pyStr code))) :
    ∃ rec dq,
      get_financial_statements finstate (pyStr code) (fmt8 y m d) = some rec ∧
      rec = zeroFs (pyStr code) (y - 1) "4" ∧
      rec.revenue = 0 ∧ rec.operating_income = 0 ∧ rec.net_income = 0 ∧
      rec.total_assets = 0 ∧ rec.total_liabilities = 0 ∧
      rec.total_equity = 0 ∧ rec.capital_stock = 0 ∧
      create_cypher_query_daily_data (fmt8 y m d) company_dict price_dict
        (some (fsRecordToDict rec)) = .ok (some dq) ∧
      dq.fsProps = some sevenZeroFsProps ∧
      dq.year = y ∧ dq.quarter = (m - 1) / 3 + 1 ∧
      ∃ fsId qId yId,
        (∃ n ∈ (applyDailyQuery g dq).nodes,
          n.nid = fsId ∧ n.label = Label.finStmts ∧ n.props = sevenZeroFsProps) ∧
        (∃ n ∈ (applyDailyQuery g dq).nodes,
          n.nid = qId ∧ n.label = Label.quarter ∧
          n.props = [("year", PVal.bare (toString y)),
                     ("quarter", PVal.bare (toString ((m - 1) / 3 + 1)))]) ∧
        (∃ n ∈ (applyDailyQuery g dq).nodes,
          n.nid = yId ∧ n.label = Label.year ∧
          n.props = [("year", PVal.bare (toString y))]) ∧
        (fsId, RelType.FOR_QUARTER, qId) ∈ (applyDailyQuery g dq).edges ∧
        (fsId, RelType.FOR_YEAR, yId) ∈ (applyDailyQuery g dq).edges := by
  obtain ⟨q0, rest, hq, hlast⟩ := get_quarter_list_fmt8 hy hm99
  rw [hq] at hnone
  simp only [Option.getD_some] at hnone
  have hsent : get_financial_statements finstate (pyStr code) (fmt8 y m d) =
      some (zeroFs (pyStr code) (y - 1) "4") := by
    rw [get_financial_statements, hq]
    show some (fsLoop finstate (pyStr code) q0 rest) = _
    rw [fsLoop_all_none finstate (pyStr code) rest q0 (y - 1, "11011", "4") hnone hlast]
  set rec := zeroFs (pyStr code) (y - 1) "4" with hrec
  have hsynth : create_cypher_query_daily_data (fmt8 y m d) company_dict price_dict
      (some (fsRecordToDict rec)) = .ok (some
        { date := fmt8 y m d, year := y, month := m, day := d,
          quarter := (m - 1) / 3 + 1,
          spProps := [
            ("stck_hgpr", PVal.bare (pyStr v1)),
            ("stck_lwpr", PVal.bare (pyStr v2)),
            ("stck_oprc", PVal.bare (pyStr v3)),
            ("stck_clpr", PVal.bare (pyStr v4))],
          indProps := [
            ("pbr", PVal.bare (pyStr (dictGetD price_dict "pbr" (.int 0)))),
            ("per", PVal.bare (pyStr (dictGetD price_dict "per" (.int 0)))),
            ("eps", PVal.bare (pyStr (dictGetD price_dict "eps" (.int 0))))],
          fsProps := some sevenZeroFsProps,
          company_code := pyStr code }) := by
    simp only [create_cypher_query_daily_data, get_date_components_fmt8 hy hm99 hd99,
      reqGet, hp1, hp2, hp3, hp4, hcode]
    rfl
  refine ⟨rec, _, hsent, rfl, rfl, rfl, rfl, rfl, rfl, rfl, rfl, hsynth, rfl, rfl, rfl, ?_⟩
  exact applyDailyQuery_fs_linked g _ sevenZeroFsProps rfl hc

/-! ### The counterexample run for C4's original phrasing -/

/-- A source feed with no financial-statement data at all. -/
def c4FinstateNone : String → Nat → String → Option (List DartRow) :=
  fun _ _ _ => Option.none

/-- The record the collector returns for `20240101` when every candidate
quarter has no data. -/
def c4FsRec : FsRecord :=
  (get_financial_statements c4FinstateNone "000001" "20240101").getD
    (zeroFs "000001" 0 "")

/-- The graph after the daily write for `20240101` with the sentinel record. -/
def c4Graph : Graph :=
  match create_cypher_query_daily_data "20240101" c1CompanyDict c1PriceDict
      (some (fsRecordToDict c4FsRec)) with
  | .ok (some q) => applyDailyQuery c1BaseGraph q
  | _ => c1BaseGraph

/-- **C4** (counterexample) — at date `20240101` with no financial data, the
code's own sentinel record names reporting quarter Q4 of 2023
(`_get_quarter_list`'s only candidate), yet the written graph contains no
Quarter node `(2023, 4)` at all: the `FinancialStatements` node's
`FOR_QUARTER` edge targets the Quarter node `(2024, 1)` derived from the date,
so the claim's "linked … to the correct reporting quarter" fails. -/
theorem fs_sentinel_reporting_quarter_counterexample :
    c4FsRec.year = 2023 ∧ c4FsRec.quarter = "4" ∧
    (¬ ∃ n ∈ c4Graph.nodes, n.label = Label.quarter ∧
        n.props = [("year", PVal.bare "2023"), ("quarter", PVal.bare "4")]) ∧
    (∃ fs ∈ c4Graph.nodes, fs.label = Label.finStmts ∧
      fs.props = sevenZeroFsProps ∧
      ∃ qn ∈ c4Graph.nodes, qn.label = Label.quarter ∧
        qn.props = [("year", PVal.bare "2024"), ("quarter", PVal.bare "1")] ∧
        (fs.nid, RelType.FOR_QUARTER, qn.nid) ∈ c4Graph.edges) := by
  decide

/-- Witness for the amended C4 theorem at a concrete January date. -/
theorem fs_sentinel_all_zero_linked_witness :
    ∃ rec dq,
      get_financial_statements c4FinstateNone (pyStr (DVal.str "000001"))
        (fmt8 2024 1 1) = some rec ∧
      rec = zeroFs (pyStr (DVal.str "000001")) (2024 - 1) "4" ∧
      rec.revenue = 0 ∧ rec.operating_income = 0 ∧ rec.net_income = 0 ∧
      rec.total_assets = 0 ∧ rec.total_liabilities = 0 ∧
      rec.total_equity = 0 ∧ rec.capital_stock = 0 ∧
      create_cypher_query_daily_data (fmt8 2024 1 1) c1CompanyDict c1PriceDict
        (some (fsRecordToDict rec)) = .ok (some dq) ∧
      dq.fsProps = some sevenZeroFsProps ∧
      dq.year = 2024 ∧ dq.quarter = (1 - 1) / 3 + 1 ∧
      ∃ fsId qId yId,
        (∃ n ∈ (applyDailyQuery c1BaseGraph dq).nodes,
          n.nid = fsId ∧ n.label = Label.finStmts ∧ n.props = sevenZeroFsProps) ∧
        (∃ n ∈ (applyDailyQuery c1BaseGraph dq).nodes,
          n.nid = qId ∧ n.label = Label.quarter ∧
          n.props = [("year", PVal.bare (toString 2024)),
                     ("quarter", PVal.bare (toString ((1 - 1) / 3 + 1)))]) ∧
        (∃ n ∈ (applyDailyQuery c1BaseGraph dq).nodes,
          n.nid = yId ∧ n.label = Label.year ∧
          n.props = [("year", PVal.bare (toString 2024))]) ∧
        (fsId, RelType.FOR_QUARTER, qId) ∈ (applyDailyQuery c1BaseGraph dq).edges ∧
        (fsId, RelType.FOR_YEAR, yId) ∈ (applyDailyQuery c1BaseGraph dq).edges := by
  exact fs_sentinel_all_zero_linked_to_date_quarter c4FinstateNone c1BaseGraph
    c1CompanyDict c1PriceDict 2024 1 1 (by decide) (by decide) (by decide)
    (DVal.str "000001") rfl
    (DVal.str "70500") (DVal.str "69000") (DVal.str "70000") (DVal.str "70300")
    rfl rfl rfl rfl (by decide) (by decide)

/-!
## `graph_builders.get_competitor_info`

A dataframe row is modeled by its stock code and its competitor-code cell,
which may be a string (comma-joined), a list, or `NaN` (Python's `NaN` is
*truthy*, so it survives the falsiness guard and is rejected by the
`isinstance(list)` check).  `iloc[0]` on an empty selection raises, which the
enclosing `except` turns into `({}, [])`, modeled as `(none, [])`.
-/

inductive CompeteVal where
  | vstr (s : String)
  | vlist (l : List String)
  | nan
deriving DecidableEq, Repr

structure CompanyRow where
  stock_code : String
  compete_stock_code_li : CompeteVal
deriving DecidableEq, Repr

/-- Python truthiness of the competitor cell
(`not x or x == [] or x == ''` negated). -/
def competeTruthy : CompeteVal → Bool
  | .vstr s => !(s == "")
  | .vlist l => !l.isEmpty
  | .nan => true

/-- Normalization of the competitor cell into a code list: a string is split
on commas, stripped, and empties dropped; a list is used as is; anything else
(`NaN`) is "not a list". -/
def normalizedCodes : CompeteVal → Option (List String)
  | .vstr s => some (((s.splitOn ",").map String.trim).filter (fun c => !(c == "")))
  | .vlist l => some l
  | .nan => Option.none

/-- The destination-row loop: skip the source company itself, skip codes with
no matching row (the `except: continue`). -/
def competitorDsts (stock_code : String) (graph_df : List CompanyRow)
    (codes : List String) : List CompanyRow :=
  codes.filterMap (fun code =>
    if stock_code = code then Option.none
    else graph_df.find? (fun r => decide (r.stock_code = code)))

def get_competitor_info (stock_code : String) (graph_df : List CompanyRow) :
    Option CompanyRow × List CompanyRow :=
  match graph_df.find? (fun r => decide (r.stock_code = stock_code)) with
  | Option.none => (Option.none, [])
  | some src =>
      if competeTruthy src.compete_stock_code_li then
        match normalizedCodes src.compete_stock_code_li with
        | Option.none => (some src, [])
        | some codes =>
            if codes.isEmpty then (some src, [])
            else (some src, competitorDsts stock_code graph_df codes)
      else (some src, [])

theorem competitorDsts_no_self {sc : String} {df : List CompanyRow}
    {codes : List String} {dst : CompanyRow}
    (h : dst ∈ competitorDsts sc df codes) : dst.stock_code ≠ sc := by
  obtain ⟨code, hcode, hf⟩ := List.mem_filterMap.mp h
  by_cases hsc : sc = code
  · rw [if_pos hsc] at hf
    cases hf
  · rw [if_neg hsc] at hf
    have hdc := List.find?_some hf
    rw [decide_eq_true_eq] at hdc
    rw [hdc]
    exact fun e => hsc e.symm

/-- **C9** — For every stock code and every company dataframe, the destination
list returned by `get_competitor_info` never contains an entry whose stock
code equals the source company's stock code, so competitor ingestion never
creates a `COMPETES_WITH` self-loop even when a company lists itself as its
own competitor. -/
theorem get_competitor_info_no_self (stock_code : String)
    (graph_df : List CompanyRow) :
    ∀ dst ∈ (get_competitor_info stock_code graph_df).2,
      dst.stock_code ≠ stock_code := by
  intro dst hdst
  unfold get_competitor_info at hdst
  split at hdst
  · simp at hdst
  · split at hdst
    · split at hdst
      · simp at hdst
      · split at hdst
        · simp at hdst
        · exact competitorDsts_no_self hdst
    · simp at hdst

/-- Witness for C9: a company listing itself among its competitors yields
destinations that exclude it. -/
theorem get_competitor_info_no_self_witness :
    (get_competitor_info "000001"
        [⟨"000001", .vlist ["000001", "000002"]⟩, ⟨"000002", .vlist []⟩]).2 =
      [⟨"000002", .vlist []⟩] ∧
    ∀ dst ∈ (get_competitor_info "000001"
        [⟨"000001", .vlist ["000001", "000002"]⟩, ⟨"000002", .vlist []⟩]).2,
      dst.stock_code ≠ "000001" := by
  exact ⟨by decide, get_competitor_info_no_self "000001" _⟩

/-!
## `run_graphdb.add_daily_data_to_graph` (claim C6)

Per company: an empty price selection increments the error counter and
`continue`s; otherwise the write is attempted inside `try`, a raised error is
caught, logged and counted, and the loop moves on.  Whether the synthesized
write succeeds for a company is external behavior of the store, abstracted by
`writeOk`.
-/

structure PriceRow where
  stock_code : String
deriving DecidableEq, Repr

def add_daily_data_to_graph (writeOk : String → Bool)
    (company_df : List CompanyRow) (price_df : List PriceRow) : Nat × Nat :=
  company_df.foldl
    (fun acc company =>
      if (price_df.filter (fun p => decide (p.stock_code = company.stock_code))).isEmpty then
        (acc.1, acc.2 + 1)
      else if writeOk company.stock_code then (acc.1 + 1, acc.2)
      else (acc.1, acc.2 + 1))
    (0, 0)

/-- A company counts as a success exactly when it has a price row and its
write does not raise. -/
def dailySuccess (writeOk : String → Bool) (price_df : List PriceRow)
    (c : CompanyRow) : Bool :=
  !(price_df.filter (fun p => decide (p.stock_code = c.stock_code))).isEmpty &&
    writeOk c.stock_code

theorem add_daily_loop (writeOk : String → Bool) (price_df : List PriceRow) :
    ∀ (l : List CompanyRow) (s e : Nat),
      l.foldl
        (fun acc company =>
          if (price_df.filter (fun p => decide (p.stock_code = company.stock_code))).isEmpty then
            (acc.1, acc.2 + 1)
          else if writeOk company.stock_code then (acc.1 + 1, acc.2)
          else (acc.1, acc.2 + 1))
        (s, e) =
      (s + l.countP (dailySuccess writeOk price_df),
       e + l.countP (fun c => !dailySuccess writeOk price_df c)) := by
  intro l
  induction l with
  | nil => intro s e; simp
  | cons c l ih =>
      intro s e
      rw [List.foldl_cons, List.countP_cons, List.countP_cons]
      by_cases h1 : (price_df.filter (fun p => decide (p.stock_code = c.stock_code))).isEmpty
      · have hs : dailySuccess writeOk price_df c = false := by
          simp [dailySuccess, h1]
        rw [if_pos h1, ih]
        simp only [hs, Prod.ext_iff]
        simp
        omega
      · by_cases h2 : writeOk c.stock_code
        · have hs : dailySuccess writeOk price_df c = true := by
            simp only [dailySuccess, h2, Bool.and_true, Bool.not_eq_true']
            simpa using h1
          rw [if_neg h1, if_pos h2, ih]
          simp only [hs, Prod.ext_iff]
          simp
          omega
        · have hs : dailySuccess writeOk price_df c = false := by
            simp [dailySuccess, h2]
          rw [if_neg h1, if_neg h2, ih]
          simp only [hs, Prod.ext_iff]
          simp
          omega

/-- **C6** — During one date's graph-write step, a company with no price row
or whose write raises increments the error counter and the loop continues; a
successful write increments the success counter; no failure terminates the
loop, and the returned pair is exactly (number of successful companies, number
of failed companies) — the two counts partition the whole company universe. -/
theorem add_daily_data_to_graph_counts (writeOk : String → Bool)
    (company_df : List CompanyRow) (price_df : List PriceRow) :
    add_daily_data_to_graph writeOk company_df price_df =
      (company_df.countP (dailySuccess writeOk price_df),
       company_df.countP (fun c => !dailySuccess writeOk price_df c)) ∧
    (add_daily_data_to_graph writeOk company_df price_df).1 +
      (add_daily_data_to_graph writeOk company_df price_df).2 =
      company_df.length := by
  have h := add_daily_loop writeOk price_df company_df 0 0
  refine ⟨by simpa [add_daily_data_to_graph] using h, ?_⟩
  rw [add_daily_data_to_graph, h]
  simp only [Nat.zero_add]
  have hcompl : company_df.countP (fun c => !dailySuccess writeOk price_df c) =
      company_df.countP (fun a => decide ¬(dailySuccess writeOk price_df a = true)) := by
    apply List.countP_congr
    intro a _
    cases hda : dailySuccess writeOk price_df a <;> simp [hda]
  rw [hcompl]
  exact (List.length_eq_countP_add_countP (dailySuccess writeOk price_df) company_df).symm

/-!
## `run_graphdb.process_single_date` (claim C2)

Shared run-local state: the `current_date` marker and the in-memory
`processed_dates` log.  The marker is set to the date before the three steps
run.  The steps either complete with the per-company counters, or raise; the
counters are assigned only when the graph-write step completes, so on the
exception path they are still `(0, 0)` when the `finally` block evaluates
`success_count > 0 or error_count == 0` to decide whether to append the date
and clear the marker.  A raised exception is re-raised (result `none`).
-/

structure RunState where
  current_date : Option String
  processed_dates : List String
deriving DecidableEq, Repr

inductive DateStepsResult where
  | completed (success_count error_count : Nat)
  | raised
deriving DecidableEq, Repr

def process_single_date (st : RunState) (date : String) (r : DateStepsResult) :
    RunState × Option (Nat × Nat) :=
  let stRun : RunState := { st with current_date := some date }
  match r with
  | .completed s e =>
      if s > 0 || e == 0 then
        ({ current_date := Option.none,
           processed_dates := stRun.processed_dates ++ [date] }, some (s, e))
      else (stRun, some (s, e))
  | .raised =>
      if 0 > 0 || 0 == 0 then
        ({ current_date := Option.none,
           processed_dates := stRun.processed_dates ++ [date] }, Option.none)
      else (stRun, Option.none)

/-- **C2** — evaluation at the failing inputs.  The claim says that when the
cycle for a date aborts with an exception before `GraphWritten` completes, the
marker still holds the date and the date is not in the processed-dates log; in
fact the `finally` block sees counters `(0, 0)`, its condition
`success_count > 0 or error_count == 0` is true, and it appends the date to
the log and clears the marker.  Conversely, a date whose graph write completed
with only failures (`0` successes, `5` errors) is *not* appended and the
marker is *not* cleared, though `GraphWritten` completed. -/
theorem process_single_date_marker_divergence :
    process_single_date ⟨Option.none, []⟩ "20240101" .raised =
      (⟨Option.none, ["20240101"]⟩, Option.none) ∧
    process_single_date ⟨Option.none, []⟩ "20240101" (.completed 0 5) =
      (⟨some "20240101", []⟩, some (0, 5)) := by
  decide

/-!
## `StockKnowledgeGraph.clear_all_data` / `reset_database` (claim C8)

Administrative state: nodes, relationships, named constraints, named indexes.
`clear_all_data` runs `MATCH (n) DETACH DELETE n`.  `_clear_constraints`
iterates over the `SHOW CONSTRAINTS` snapshot and drops every constraint with
a truthy name; `_clear_indexes` iterates over the `SHOW INDEXES` snapshot and
drops every index whose name is truthy and does not start with `'system'`.
`reset_database` runs all three in order.
-/

/-- `s.startswith(pre)` on character lists. -/
def strStartsWith : List Char → List Char → Bool
  | [], _ => true
  | _ :: _, [] => false
  | p :: ps, c :: cs => p == c && strStartsWith ps cs

def pyStartsWith (s pre : String) : Bool := strStartsWith pre.data s.data

structure DbState where
  nodes : List GNode
  rels : List (Nat × RelType × Nat)
  constraints : List String
  indexes : List String
deriving DecidableEq, Repr

def clear_all_data (s : DbState) : DbState := { s with nodes := [], rels := [] }

/-- Iterate over a name snapshot, dropping (by name) those satisfying
`cond`. -/
def dropFold (cond : String → Bool) (l : List String) : List String :=
  l.foldl (fun acc name => if cond name then acc.erase name else acc) l

def clear_constraints (s : DbState) : DbState :=
  { s with constraints := dropFold (fun n => !(n == "")) s.constraints }

def clear_indexes (s : DbState) : DbState :=
  { s with indexes :=
      dropFold (fun n => !(n == "") && !(pyStartsWith n "system")) s.indexes }

def reset_database (s : DbState) : DbState :=
  clear_indexes (clear_constraints (clear_all_data s))

theorem foldl_erase_cond (cond : String → Bool) :
    ∀ (l acc : List String), acc.Nodup →
      l.foldl (fun a n => if cond n then a.erase n else a) acc =
        acc.filter (fun x => !cond x || decide (x ∉ l)) := by
  intro l
  induction l with
  | nil =>
      intro acc _
      simp
  | cons n l ih =>
      intro acc hacc
      rw [List.foldl_cons]
      by_cases hc : cond n
      · rw [if_pos hc, ih _ (hacc.erase n), hacc.erase_eq_filter n, List.filter_filter]
        apply List.filter_congr
        intro x _
        by_cases hx : x = n
        · subst hx
          simp [hc]
        · simp [hx, hc, List.mem_cons]
      · rw [if_neg hc, ih acc hacc]
        apply List.filter_congr
        intro x _
        by_cases hx : x = n
        · subst hx
          simp [hc, List.mem_cons]
        · simp [hx, List.mem_cons]

theorem dropFold_eq (cond : String → Bool) (l : List String) (h : l.Nodup) :
    dropFold cond l = l.filter (fun x => !cond x) := by
  rw [dropFold, foldl_erase_cond cond l l h]
  apply List.filter_congr
  intro x hx
  simp [hx]

/-- **C8** — `clear_all_data` detach-deletes every node and relationship while
leaving all constraints and indexes in place, whereas `reset_database` deletes
every node and relationship and additionally drops every constraint and every
index whose name does not mark it as a system index (names are assumed
distinct and non-empty, as the store guarantees). -/
theorem clear_all_data_reset_database_semantics (s : DbState)
    (hnc : s.constraints.Nodup) (hni : s.indexes.Nodup)
    (hc0 : "" ∉ s.constraints) (hi0 : "" ∉ s.indexes) :
    (clear_all_data s).nodes = [] ∧ (clear_all_data s).rels = [] ∧
    (clear_all_data s).constraints = s.constraints ∧
    (clear_all_data s).indexes = s.indexes ∧
    (reset_database s).nodes = [] ∧ (reset_database s).rels = [] ∧
    (reset_database s).constraints = [] ∧
    (reset_database s).indexes =
      s.indexes.filter (fun n => pyStartsWith n "system") := by
  refine ⟨rfl, rfl, rfl, rfl, rfl, rfl, ?_, ?_⟩
  · show dropFold (fun n => !(n == "")) s.constraints = []
    rw [dropFold_eq _ _ hnc]
    rw [List.filter_eq_nil_iff]
    intro x hx
    simp only [Bool.not_not, beq_iff_eq]
    exact fun he => hc0 (he ▸ hx)
  · show dropFold (fun n => !(n == "") && !(pyStartsWith n "system")) s.indexes =
      s.indexes.filter (fun n => pyStartsWith n "system")
    rw [dropFold_eq _ _ hni]
    apply List.filter_congr
    intro x hx
    have hxe : ¬ (x == "") = true := by
      simp only [beq_iff_eq]
      intro he
      exact hi0 (he ▸ hx)
    simp [hxe]

/-- Witness for C8 on a concrete administrative state. -/
theorem clear_all_data_reset_database_semantics_witness :
    (clear_all_data ⟨[⟨1, Label.company, []⟩], [(1, RelType.BELONGS_TO, 1)],
        ["uniq_company"], ["idx_date", "systemIndex"]⟩).constraints = ["uniq_company"] ∧
    (reset_database ⟨[⟨1, Label.company, []⟩], [(1, RelType.BELONGS_TO, 1)],
        ["uniq_company"], ["idx_date", "systemIndex"]⟩).constraints = [] ∧
    (reset_database ⟨[⟨1, Label.company, []⟩], [(1, RelType.BELONGS_TO, 1)],
        ["uniq_company"], ["idx_date", "systemIndex"]⟩).indexes = ["systemIndex"] := by
  have h := clear_all_data_reset_database_semantics
    ⟨[⟨1, Label.company, []⟩], [(1, RelType.BELONGS_TO, 1)],
      ["uniq_company"], ["idx_date", "systemIndex"]⟩
    (by decide) (by decide) (by decide) (by decide)
  refine ⟨h.2.2.1, h.2.2.2.2.2.2.1, ?_⟩
  rw [h.2.2.2.2.2.2.2]
  decide

/-!
## `run_graphdb.add_competitor_relationships` (claim C3)

The run snapshots the existing `COMPETES_WITH` pairs once
(`check_existing_competitor_relationships`, keys `"src-dst"`), fills `NaN`
competitor cells with `''`, and then, row by row, resolves the competitor rows
with `get_competitor_info` and merges a `COMPETES_WITH` edge for every
destination whose key is not in the snapshot.  The merge query
(`_create_cypher_query_competitor`) `MATCH`es both companies by stock code and
`MERGE`s the relationship, so it is a no-op when the edge already exists.
-/

def fillnaCompete (r : CompanyRow) : CompanyRow :=
  match r.compete_stock_code_li with
  | .nan => { r with compete_stock_code_li := .vstr "" }
  | _ => r

def companyIds (g : Graph) (code : String) : List Nat :=
  (g.nodes.filter (fun n => decide (n.label = Label.company ∧
    lookupProp n "stock_code" = some (.qs code)))).map (fun n => n.nid)

/-- The stock code of the `Company` node with id `i`, if any. -/
def companyCodeOf (g : Graph) (i : Nat) : Option String :=
  match g.nodes.find? (fun n => decide (n.nid = i)) with
  | some n =>
      if n.label = Label.company then
        match lookupProp n "stock_code" with
        | some (.qs s) => some s
        | _ => Option.none
      else Option.none
  | Option.none => Option.none

/-- `check_existing_competitor_relationships`: the set of `"src-dst"` keys of
`(c1:Company)-[:COMPETES_WITH]->(c2:Company)` edges. -/
def existingPairs (g : Graph) : List String :=
  g.edges.filterMap (fun e =>
    if e.2.1 = RelType.COMPETES_WITH then
      match companyCodeOf g e.1, companyCodeOf g e.2.2 with
      | some s, some d => some (s ++ "-" ++ d)
      | _, _ => Option.none
    else Option.none)

/-- Interpretation of `_create_cypher_query_competitor`: `MATCH` both
companies (all matches) and `MERGE` the edge for every pair of rows. -/
def applyCompetitorQuery (g : Graph) (src dst : String) : Graph :=
  ((companyIds g src).flatMap (fun ia =>
    (companyIds g dst).map (fun ib => (ia, RelType.COMPETES_WITH, ib)))).foldl
    mergeEdge g

/-- One destination of one row: skip when the `"src-dst"` key was in the
start-of-run snapshot, otherwise run the merge query. -/
def competitorInner (existing : List String) (rowCode srcCode : String)
    (h2 : Graph) (dst : CompanyRow) : Graph :=
  if (rowCode ++ "-" ++ dst.stock_code) ∈ existing then h2
  else applyCompetitorQuery h2 srcCode dst.stock_code

/-- One row of the ingestion loop (the `try` body; a falsy competitor cell
`continue`s, an unresolvable source yields no destinations). -/
def competitorStep (existing : List String) (rows : List CompanyRow)
    (h : Graph) (row : CompanyRow) : Graph :=
  if competeTruthy row.compete_stock_code_li then
    match get_competitor_info row.stock_code rows with
    | (some src, dsts) =>
        dsts.foldl (competitorInner existing row.stock_code src.stock_code) h
    | (Option.none, _) => h
  else h

def add_competitor_relationships (g : Graph) (total_df : List CompanyRow) : Graph :=
  (total_df.map fillnaCompete).foldl
    (competitorStep (existingPairs g) (total_df.map fillnaCompete)) g

/-- Number of `COMPETES_WITH` edges from node `ia` to node `ib`. -/
def countCompetes (g : Graph) (ia ib : Nat) : Nat :=
  g.edges.countP (fun e => decide (e = (ia, RelType.COMPETES_WITH, ib)))

theorem countCompetes_pos {g : Graph} {ia ib : Nat} :
    0 < countCompetes g ia ib ↔ (ia, RelType.COMPETES_WITH, ib) ∈ g.edges := by
  unfold countCompetes
  rw [List.countP_pos_iff]
  constructor
  · rintro ⟨a, ha, hp⟩
    rw [decide_eq_true_eq] at hp
    exact hp ▸ ha
  · intro h
    exact ⟨_, h, by simp⟩

theorem mergeEdge_countCompetes_le (g : Graph) (e : Nat × RelType × Nat)
    (ia ib : Nat) (h : countCompetes g ia ib ≤ 1) :
    countCompetes (mergeEdge g e) ia ib ≤ 1 := by
  by_cases hmem : e ∈ g.edges
  · rw [mergeEdge, if_pos hmem]
    exact h
  · rw [mergeEdge, if_neg hmem]
    unfold countCompetes at *
    show (g.edges ++ [e]).countP _ ≤ 1
    rw [List.countP_append]
    by_cases he : e = (ia, RelType.COMPETES_WITH, ib)
    · subst he
      have h0 : g.edges.countP
          (fun x => decide (x = (ia, RelType.COMPETES_WITH, ib))) = 0 := by
        rw [List.countP_eq_zero]
        intro a ha
        simp only [decide_eq_true_eq]
        rintro rfl
        exact hmem ha
      rw [h0]
      simp [List.countP_cons]
    · have hp : (fun x => decide (x = (ia, RelType.COMPETES_WITH, ib))) e = false := by
        simp [he]
      simp only [List.countP_cons, List.countP_nil, hp]
      simp
      omega

theorem mergeEdge_countCompetes_ge (g : Graph) (e : Nat × RelType × Nat)
    (ia ib : Nat) : countCompetes g ia ib ≤ countCompetes (mergeEdge g e) ia ib := by
  by_cases hmem : e ∈ g.edges
  · rw [mergeEdge, if_pos hmem]
  · rw [mergeEdge, if_neg hmem]
    unfold countCompetes
    show _ ≤ (g.edges ++ [e]).countP _
    rw [List.countP_append]
    omega

theorem mergeEdge_countCompetes_triple (g : Graph) (ia ib : Nat)
    (h : countCompetes g ia ib ≤ 1) :
    countCompetes (mergeEdge g (ia, RelType.COMPETES_WITH, ib)) ia ib = 1 := by
  by_cases hmem : (ia, RelType.COMPETES_WITH, ib) ∈ g.edges
  · rw [mergeEdge, if_pos hmem]
    have := countCompetes_pos.mpr hmem
    omega
  · rw [mergeEdge, if_neg hmem]
    unfold countCompetes at *
    show (g.edges ++ [(ia, RelType.COMPETES_WITH, ib)]).countP _ = 1
    rw [List.countP_append]
    have h0 : g.edges.countP
        (fun x => decide (x = (ia, RelType.COMPETES_WITH, ib))) = 0 := by
      rw [List.countP_eq_zero]
      intro a ha
      simp only [decide_eq_true_eq]
      rintro rfl
      exact hmem ha
    rw [h0]
    simp [List.countP_cons]

theorem foldl_mergeEdge_countCompetes_le (es : List (Nat × RelType × Nat))
    (g : Graph) (ia ib : Nat) (h : countCompetes g ia ib ≤ 1) :
    countCompetes (es.foldl mergeEdge g) ia ib ≤ 1 := by
  induction es generalizing g with
  | nil => exact h
  | cons e es ih => exact ih _ (mergeEdge_countCompetes_le g e ia ib h)

theorem foldl_mergeEdge_countCompetes_ge (es : List (Nat × RelType × Nat))
    (g : Graph) (ia ib : Nat) :
    countCompetes g ia ib ≤ countCompetes (es.foldl mergeEdge g) ia ib := by
  induction es generalizing g with
  | nil => exact le_refl _
  | cons e es ih => exact (mergeEdge_countCompetes_ge g e ia ib).trans (ih _)

theorem applyCompetitorQuery_nodes (g : Graph) (s d : String) :
    (applyCompetitorQuery g s d).nodes = g.nodes :=
  foldl_mergeEdge_nodes _ _

theorem applyCompetitorQuery_mono (g : Graph) (s d : String)
    {e : Nat × RelType × Nat} (h : e ∈ g.edges) :
    e ∈ (applyCompetitorQuery g s d).edges :=
  foldl_mergeEdge_mem _ _ _ (Or.inr h)

theorem applyCompetitorQuery_countCompetes_le (g : Graph) (s d : String)
    (ia ib : Nat) (h : countCompetes g ia ib ≤ 1) :
    countCompetes (applyCompetitorQuery g s d) ia ib ≤ 1 :=
  foldl_mergeEdge_countCompetes_le _ _ _ _ h

theorem applyCompetitorQuery_countCompetes_ge (g : Graph) (s d : String)
    (ia ib : Nat) :
    countCompetes g ia ib ≤ countCompetes (applyCompetitorQuery g s d) ia ib :=
  foldl_mergeEdge_countCompetes_ge _ _ _ _

theorem applyCompetitorQuery_singleton {h : Graph} {A B : String} {ia ib : Nat}
    (hA : companyIds h A = [ia]) (hB : companyIds h B = [ib]) :
    applyCompetitorQuery h A B = mergeEdge h (ia, RelType.COMPETES_WITH, ib) := by
  unfold applyCompetitorQuery
  rw [hA, hB]
  rfl

theorem companyIds_congr {g h : Graph} (hn : h.nodes = g.nodes) (c : String) :
    companyIds h c = companyIds g c := by
  unfold companyIds
  rw [hn]

/-! Keys `"src-dst"` are unambiguous when the codes contain no hyphen. -/

theorem append_dash_inj {A B : List Char} (hA : '-' ∉ A) (hB : '-' ∉ B) :
    ∀ {a b : List Char}, a ++ '-' :: b = A ++ '-' :: B → a = A ∧ b = B := by
  induction A with
  | nil =>
      intro a b h
      cases a with
      | nil => simpa using h
      | cons c a2 =>
          simp only [List.nil_append, List.cons_append, List.cons.injEq] at h
          exfalso
          apply hB
          rw [← h.2]
          exact List.mem_append_right _ (List.mem_cons_self _ _)
  | cons x A2 ih =>
      intro a b h
      cases a with
      | nil =>
          simp only [List.nil_append, List.cons_append, List.cons.injEq] at h
          exact absurd (h.1 ▸ List.mem_cons_self x A2) hA
      | cons c a2 =>
          simp only [List.cons_append, List.cons.injEq] at h
          obtain ⟨rfl, h2⟩ := h
          have hA2 : '-' ∉ A2 := fun hm => hA (List.mem_cons_of_mem _ hm)
          obtain ⟨h3, h4⟩ := ih hA2 h2
          exact ⟨by rw [h3], h4⟩

theorem mkKey_inj {A B a b : String} (hA : '-' ∉ A.data) (hB : '-' ∉ B.data)
    (h : a ++ "-" ++ b = A ++ "-" ++ B) : a = A ∧ b = B := by
  have hd : a.data ++ '-' :: b.data = A.data ++ '-' :: B.data := by
    have hc := congrArg String.data h
    simpa [String.data_append] using hc
  obtain ⟨h1, h2⟩ := append_dash_inj hA hB hd
  exact ⟨String.ext h1, String.ext h2⟩

theorem companyCodeOf_eq_id {g : Graph} {A : String} {i ia : Nat}
    (hA : companyIds g A = [ia]) (h : companyCodeOf g i = some A) : i = ia := by
  unfold companyCodeOf at h
  rcases hf : g.nodes.find? (fun n => decide (n.nid = i)) with _ | n <;> rw [hf] at h
  · simp at h
  · replace h : (if n.label = Label.company then
        match lookupProp n "stock_code" with
        | some (.qs s) => some s
        | _ => Option.none
      else Option.none) = some A := h
    by_cases hl : n.label = Label.company
    · rw [if_pos hl] at h
      rcases hp : lookupProp n "stock_code" with _ | pv <;> rw [hp] at h
      · simp at h
      · rcases pv with s | s
        · simp only [Option.some.injEq] at h
          subst h
          have hn : n ∈ g.nodes := List.mem_of_find?_eq_some hf
          have hni : n.nid = i := by
            have := List.find?_some hf
            rwa [decide_eq_true_eq] at this
          have hmf : n ∈ g.nodes.filter (fun nd => decide (nd.label = Label.company ∧
              lookupProp nd "stock_code" = some (.qs s))) :=
            List.mem_filter.mpr ⟨hn, by rw [decide_eq_true_eq]; exact ⟨hl, hp⟩⟩
          have hmap : n.nid ∈ companyIds g s := List.mem_map_of_mem _ hmf
          rw [hA, List.mem_singleton] at hmap
          omega
        · simp at h
    · rw [if_neg hl] at h
      simp at h

theorem existingPairs_mem {g : Graph} {A B : String} {ia ib : Nat}
    (hgA : companyIds g A = [ia]) (hgB : companyIds g B = [ib])
    (hdashA : '-' ∉ A.data) (hdashB : '-' ∉ B.data)
    (hmem : (A ++ "-" ++ B) ∈ existingPairs g) :
    (ia, RelType.COMPETES_WITH, ib) ∈ g.edges := by
  obtain ⟨e, he, hkey⟩ := List.mem_filterMap.mp hmem
  by_cases hrel : e.2.1 = RelType.COMPETES_WITH
  · rw [if_pos hrel] at hkey
    rcases hc1 : companyCodeOf g e.1 with _ | s <;> rw [hc1] at hkey
    · simp at hkey
    · rcases hc2 : companyCodeOf g e.2.2 with _ | d <;> rw [hc2] at hkey
      · simp at hkey
      · simp only [Option.some.injEq] at hkey
        obtain ⟨hsA, hdB⟩ := mkKey_inj hdashA hdashB hkey
        have h1 : e.1 = ia := companyCodeOf_eq_id hgA (hsA ▸ hc1)
        have h2 : e.2.2 = ib := companyCodeOf_eq_id hgB (hdB ▸ hc2)
        have he3 : e = (e.1, e.2.1, e.2.2) := rfl
        rw [h1, h2, hrel] at he3
        exact he3 ▸ he
  · rw [if_neg hrel] at hkey
    simp at hkey

/-! Preservation lemmas for the ingestion loop. -/

theorem competitorInner_nodes (ex : List String) (rc sc : String) (h : Graph)
    (dst : CompanyRow) : (competitorInner ex rc sc h dst).nodes = h.nodes := by
  unfold competitorInner
  split
  · rfl
  · exact applyCompetitorQuery_nodes _ _ _

theorem competitorInner_mono (ex : List String) (rc sc : String) (h : Graph)
    (dst : CompanyRow) {e : Nat × RelType × Nat} (he : e ∈ h.edges) :
    e ∈ (competitorInner ex rc sc h dst).edges := by
  unfold competitorInner
  split
  · exact he
  · exact applyCompetitorQuery_mono _ _ _ he

theorem competitorInner_count_le (ex : List String) (rc sc : String) (h : Graph)
    (dst : CompanyRow) (ia ib : Nat) (hc : countCompetes h ia ib ≤ 1) :
    countCompetes (competitorInner ex rc sc h dst) ia ib ≤ 1 := by
  unfold competitorInner
  split
  · exact hc
  · exact applyCompetitorQuery_countCompetes_le _ _ _ _ _ hc

theorem competitorInner_count_ge (ex : List String) (rc sc : String) (h : Graph)
    (dst : CompanyRow) (ia ib : Nat) :
    countCompetes h ia ib ≤ countCompetes (competitorInner ex rc sc h dst) ia ib := by
  unfold competitorInner
  split
  · exact le_refl _
  · exact applyCompetitorQuery_countCompetes_ge _ _ _ _ _

theorem dstFold_nodes (ex : List String) (rc sc : String)
    (dsts : List CompanyRow) : ∀ h : Graph,
    (dsts.foldl (competitorInner ex rc sc) h).nodes = h.nodes := by
  induction dsts with
  | nil => intro h; rfl
  | cons d dsts ih =>
      intro h
      rw [List.foldl_cons, ih, competitorInner_nodes]

theorem dstFold_mono (ex : List String) (rc sc : String)
    (dsts : List CompanyRow) : ∀ (h : Graph) {e : Nat × RelType × Nat},
    e ∈ h.edges → e ∈ (dsts.foldl (competitorInner ex rc sc) h).edges := by
  induction dsts with
  | nil => intro h e he; exact he
  | cons d dsts ih =>
      intro h e he
      rw [List.foldl_cons]
      exact ih _ (competitorInner_mono ex rc sc h d he)

theorem dstFold_count_le (ex : List String) (rc sc : String) (ia ib : Nat)
    (dsts : List CompanyRow) : ∀ h : Graph, countCompetes h ia ib ≤ 1 →
    countCompetes (dsts.foldl (competitorInner ex rc sc) h) ia ib ≤ 1 := by
  induction dsts with
  | nil => intro h hc; exact hc
  | cons d dsts ih =>
      intro h hc
      rw [List.foldl_cons]
      exact ih _ (competitorInner_count_le ex rc sc h d ia ib hc)

theorem dstFold_count_ge (ex : List String) (rc sc : String) (ia ib : Nat)
    (dsts : List CompanyRow) : ∀ h : Graph,
    countCompetes h ia ib ≤ countCompetes (dsts.foldl (competitorInner ex rc sc) h) ia ib := by
  induction dsts with
  | nil => intro h; exact le_refl _
  | cons d dsts ih =>
      intro h
      rw [List.foldl_cons]
      exact (competitorInner_count_ge ex rc sc h d ia ib).trans (ih _)

theorem dstFold_count_eq_one (ex : List String) (rc sc : String) (ia ib : Nat)
    (dsts : List CompanyRow) (h : Graph) (hc : countCompetes h ia ib = 1) :
    countCompetes (dsts.foldl (competitorInner ex rc sc) h) ia ib = 1 := by
  have hle := dstFold_count_le ex rc sc ia ib dsts h (by omega)
  have hge := dstFold_count_ge ex rc sc ia ib dsts h
  omega

theorem competitorStep_nodes (ex : List String) (rows : List CompanyRow)
    (h : Graph) (row : CompanyRow) :
    (competitorStep ex rows h row).nodes = h.nodes := by
  unfold competitorStep
  split
  · rcases hinfo : get_competitor_info row.stock_code rows with ⟨_ | src, dsts⟩
    · rfl
    · exact dstFold_nodes _ _ _ _ _
  · rfl

theorem competitorStep_mono (ex : List String) (rows : List CompanyRow)
    (h : Graph) (row : CompanyRow) {e : Nat × RelType × Nat} (he : e ∈ h.edges) :
    e ∈ (competitorStep ex rows h row).edges := by
  unfold competitorStep
  split
  · rcases hinfo : get_competitor_info row.stock_code rows with ⟨_ | src, dsts⟩
    · exact he
    · exact dstFold_mono _ _ _ _ _ he
  · exact he

theorem competitorStep_count_le (ex : List String) (rows : List CompanyRow)
    (h : Graph) (row : CompanyRow) (ia ib : Nat)
    (hc : countCompetes h ia ib ≤ 1) :
    countCompetes (competitorStep ex rows h row) ia ib ≤ 1 := by
  unfold competitorStep
  split
  · rcases hinfo : get_competitor_info row.stock_code rows with ⟨_ | src, dsts⟩
    · exact hc
    · exact dstFold_count_le _ _ _ _ _ _ _ hc
  · exact hc

theorem competitorStep_count_ge (ex : List String) (rows : List CompanyRow)
    (h : Graph) (row : CompanyRow) (ia ib : Nat) :
    countCompetes h ia ib ≤ countCompetes (competitorStep ex rows h row) ia ib := by
  unfold competitorStep
  split
  · rcases hinfo : get_competitor_info row.stock_code rows with ⟨_ | src, dsts⟩
    · exact le_refl _
    · exact dstFold_count_ge _ _ _ _ _ _ _
  · exact le_refl _

theorem stepFold_nodes (ex : List String) (rows : List CompanyRow)
    (l : List CompanyRow) : ∀ h : Graph,
    (l.foldl (competitorStep ex rows) h).nodes = h.nodes := by
  induction l with
  | nil => intro h; rfl
  | cons r l ih =>
      intro h
      rw [List.foldl_cons, ih, competitorStep_nodes]

theorem stepFold_mono (ex : List String) (rows : List CompanyRow)
    (l : List CompanyRow) : ∀ (h : Graph) {e : Nat × RelType × Nat},
    e ∈ h.edges → e ∈ (l.foldl (competitorStep ex rows) h).edges := by
  induction l with
  | nil => intro h e he; exact he
  | cons r l ih =>
      intro h e he
      rw [List.foldl_cons]
      exact ih _ (competitorStep_mono ex rows h r he)

theorem stepFold_count_le (ex : List String) (rows : List CompanyRow)
    (ia ib : Nat) (l : List CompanyRow) : ∀ h : Graph,
    countCompetes h ia ib ≤ 1 →
    countCompetes (l.foldl (competitorStep ex rows) h) ia ib ≤ 1 := by
  induction l with
  | nil => intro h hc; exact hc
  | cons r l ih =>
      intro h hc
      rw [List.foldl_cons]
      exact ih _ (competitorStep_count_le ex rows h r ia ib hc)

theorem stepFold_count_ge (ex : List String) (rows : List CompanyRow)
    (ia ib : Nat) (l : List CompanyRow) : ∀ h : Graph,
    countCompetes h ia ib ≤ countCompetes (l.foldl (competitorStep ex rows) h) ia ib := by
  induction l with
  | nil => intro h; exact le_refl _
  | cons r l ih =>
      intro h
      rw [List.foldl_cons]
      exact (competitorStep_count_ge ex rows h r ia ib).trans (ih _)

theorem stepFold_count_eq_one (ex : List String) (rows : List CompanyRow)
    (ia ib : Nat) (l : List CompanyRow) (h : Graph)
    (hc : countCompetes h ia ib = 1) :
    countCompetes (l.foldl (competitorStep ex rows) h) ia ib = 1 := by
  have hle := stepFold_count_le ex rows ia ib l h (by omega)
  have hge := stepFold_count_ge ex rows ia ib l h
  omega

/-- Walking the destination list of the source row for `A`: once the entry
whose stock code is `B` is processed — whether skipped because the pair was in
the start-of-run snapshot, or merged — exactly one `A → B` edge exists, and it
stays unique for the rest of the fold. -/
theorem dstFold_achieves (g : Graph) (A B : String) (ia ib : Nat)
    (hdashA : '-' ∉ A.data) (hdashB : '-' ∉ B.data)
    (hgA : companyIds g A = [ia]) (hgB : companyIds g B = [ib])
    (dsts : List CompanyRow) :
    ∀ h : Graph, h.nodes = g.nodes → (∀ e ∈ g.edges, e ∈ h.edges) →
      countCompetes h ia ib ≤ 1 →
      (∃ dst ∈ dsts, dst.stock_code = B) →
      countCompetes (dsts.foldl (competitorInner (existingPairs g) A A) h) ia ib = 1 := by
  induction dsts with
  | nil =>
      intro h _ _ _ hex
      simp at hex
  | cons dst dsts ih =>
      intro h hnodes hmono hcount hex
      rw [List.foldl_cons]
      have hn2 : (competitorInner (existingPairs g) A A h dst).nodes = g.nodes :=
        (competitorInner_nodes _ _ _ _ _).trans hnodes
      have hm2 : ∀ e ∈ g.edges, e ∈ (competitorInner (existingPairs g) A A h dst).edges :=
        fun e he => competitorInner_mono _ _ _ _ _ (hmono e he)
      have hc2 : countCompetes (competitorInner (existingPairs g) A A h dst) ia ib ≤ 1 :=
        competitorInner_count_le _ _ _ _ _ _ _ hcount
      rcases hex with ⟨dstB, hdstB, hcode⟩
      rcases List.mem_cons.mp hdstB with rfl | htail
      · have h1 : countCompetes (competitorInner (existingPairs g) A A h dstB) ia ib = 1 := by
          unfold competitorInner
          rw [hcode]
          by_cases hexist : (A ++ "-" ++ B) ∈ existingPairs g
          · rw [if_pos hexist]
            have hedge := existingPairs_mem hgA hgB hdashA hdashB hexist
            have hmem := countCompetes_pos.mpr (hmono _ hedge)
            omega
          · rw [if_neg hexist]
            have hA2 : companyIds h A = [ia] := (companyIds_congr hnodes A).trans hgA
            have hB2 : companyIds h B = [ib] := (companyIds_congr hnodes B).trans hgB
            rw [applyCompetitorQuery_singleton hA2 hB2]
            exact mergeEdge_countCompetes_triple h ia ib hcount
        exact dstFold_count_eq_one _ _ _ _ _ _ _ h1
      · exact ih _ hn2 hm2 hc2 ⟨dstB, htail, hcode⟩

/-- Processing the (first) row whose stock code is `A` leaves exactly one
`A → B` edge. -/
theorem competitorStep_achieves (g : Graph) (rows : List CompanyRow)
    (A B : String) (ia ib : Nat)
    (hAB : A ≠ B)
    (hdashA : '-' ∉ A.data) (hdashB : '-' ∉ B.data)
    (hgA : companyIds g A = [ia]) (hgB : companyIds g B = [ib])
    (rowA : CompanyRow)
    (hfindA : rows.find? (fun r => decide (r.stock_code = A)) = some rowA)
    (hguard : competeTruthy rowA.compete_stock_code_li = true)
    (codes : List String)
    (hcodes : normalizedCodes rowA.compete_stock_code_li = some codes)
    (hBc : B ∈ codes)
    (rowB : CompanyRow)
    (hfindB : rows.find? (fun r => decide (r.stock_code = B)) = some rowB)
    (h : Graph) (hnodes : h.nodes = g.nodes)
    (hmono : ∀ e ∈ g.edges, e ∈ h.edges)
    (hcount : countCompetes h ia ib ≤ 1) :
    countCompetes (competitorStep (existingPairs g) rows h rowA) ia ib = 1 := by
  have hAcode : rowA.stock_code = A := by
    have := List.find?_some hfindA
    rwa [decide_eq_true_eq] at this
  have hne : codes.isEmpty = false := by
    cases codes with
    | nil => simp at hBc
    | cons c cs => rfl
  have hinfo : get_competitor_info rowA.stock_code rows =
      (some rowA, competitorDsts A rows codes) := by
    rw [hAcode]
    unfold get_competitor_info
    rw [hfindA]
    show (if competeTruthy rowA.compete_stock_code_li = true then
        match normalizedCodes rowA.compete_stock_code_li with
        | Option.none => (some rowA, [])
        | some codes2 =>
            if codes2.isEmpty = true then (some rowA, [])
            else (some rowA, competitorDsts A rows codes2)
      else (some rowA, [])) = _
    rw [if_pos hguard, hcodes]
    show (if codes.isEmpty = true then (some rowA, [])
      else (some rowA, competitorDsts A rows codes)) = _
    rw [hne]
    simp
  have hBrow : rowB.stock_code = B := by
    have := List.find?_some hfindB
    rwa [decide_eq_true_eq] at this
  have hdstB : rowB ∈ competitorDsts A rows codes := by
    apply List.mem_filterMap.mpr
    exact ⟨B, hBc, by rw [if_neg hAB]; exact hfindB⟩
  unfold competitorStep
  rw [if_pos hguard, hinfo]
  show countCompetes ((competitorDsts A rows codes).foldl
    (competitorInner (existingPairs g) rowA.stock_code rowA.stock_code) h) ia ib = 1
  rw [hAcode]
  exact dstFold_achieves g A B ia ib hdashA hdashB hgA hgB _ h hnodes hmono hcount
    ⟨rowB, hdstB, hBrow⟩

/-- One full ingestion run leaves exactly one `A → B` edge. -/
theorem add_competitor_relationships_once (g : Graph) (total_df : List CompanyRow)
    (A B : String) (ia ib : Nat)
    (hAB : A ≠ B)
    (hdashA : '-' ∉ A.data) (hdashB : '-' ∉ B.data)
    (hgA : companyIds g A = [ia]) (hgB : companyIds g B = [ib])
    (hcount : countCompetes g ia ib ≤ 1)
    (rowA : CompanyRow)
    (hfindA : (total_df.map fillnaCompete).find?
      (fun r => decide (r.stock_code = A)) = some rowA)
    (hguard : competeTruthy rowA.compete_stock_code_li = true)
    (codes : List String)
    (hcodes : normalizedCodes rowA.compete_stock_code_li = some codes)
    (hBc : B ∈ codes)
    (rowB : CompanyRow)
    (hfindB : (total_df.map fillnaCompete).find?
      (fun r => decide (r.stock_code = B)) = some rowB) :
    countCompetes (add_competitor_relationships g total_df) ia ib = 1 := by
  have hmemA : rowA ∈ total_df.map fillnaCompete := List.mem_of_find?_eq_some hfindA
  obtain ⟨l1, l2, hsplit⟩ := List.append_of_mem hmemA
  show countCompetes ((total_df.map fillnaCompete).foldl
    (competitorStep (existingPairs g) (total_df.map fillnaCompete)) g) ia ib = 1
  set rows := total_df.map fillnaCompete with hrows
  set F := competitorStep (existingPairs g) rows with hF
  rw [hsplit, List.foldl_append, List.foldl_cons]
  have h1nodes : (l1.foldl F g).nodes = g.nodes := by
    rw [hF]; exact stepFold_nodes _ _ _ _
  have h1mono : ∀ e ∈ g.edges, e ∈ (l1.foldl F g).edges := by
    intro e he
    rw [hF]
    exact stepFold_mono _ _ _ _ he
  have h1count : countCompetes (l1.foldl F g) ia ib ≤ 1 := by
    rw [hF]
    exact stepFold_count_le _ _ _ _ _ _ hcount
  have h2 : countCompetes (F (l1.foldl F g) rowA) ia ib = 1 := by
    rw [hF]
    exact competitorStep_achieves g rows A B ia ib hAB hdashA hdashB hgA hgB
      rowA hfindA hguard codes hcodes hBc rowB hfindB _ h1nodes h1mono h1count
  rw [hF]
  rw [hF] at h2
  exact stepFold_count_eq_one _ _ _ _ _ _ h2

theorem add_competitor_relationships_nodes (g : Graph) (total_df : List CompanyRow) :
    (add_competitor_relationships g total_df).nodes = g.nodes :=
  stepFold_nodes _ _ _ _

theorem add_competitor_iterate_nodes (total_df : List CompanyRow) :
    ∀ (k : Nat) (g : Graph),
      ((fun h => add_competitor_relationships h total_df)^[k] g).nodes = g.nodes := by
  intro k
  induction k with
  | zero => intro g; rfl
  | succ k ih =>
      intro g
      rw [Function.iterate_succ_apply']
      show (add_competitor_relationships _ total_df).nodes = g.nodes
      rw [add_competitor_relationships_nodes, ih]

/-- **C3** — For every ordered pair of distinct companies `(A, B)` (unique
`Company` nodes `ia`, `ib`; stock codes contain no hyphen, as real 6-digit
codes do) with `A` listing `B` as a competitor in the source data (the first
dataframe row for `A` carries a truthy competitor cell normalizing to a code
list containing `B`, and `B` resolves to a row), running the
competitor-relationship ingestion any number of times `n ≥ 1` — including
against a graph already containing the edge, and with the pair appearing more
than once in one run — results in exactly one `COMPETES_WITH` edge from `A`
to `B`. -/
theorem add_competitor_relationships_exactly_once (g : Graph)
    (total_df : List CompanyRow) (A B : String) (ia ib : Nat)
    (hAB : A ≠ B)
    (hdashA : '-' ∉ A.data) (hdashB : '-' ∉ B.data)
    (hgA : companyIds g A = [ia]) (hgB : companyIds g B = [ib])
    (hcount : countCompetes g ia ib ≤ 1)
    (rowA : CompanyRow)
    (hfindA : (total_df.map fillnaCompete).find?
      (fun r => decide (r.stock_code = A)) = some rowA)
    (hguard : competeTruthy rowA.compete_stock_code_li = true)
    (codes : List String)
    (hcodes : normalizedCodes rowA.compete_stock_code_li = some codes)
    (hBc : B ∈ codes)
    (rowB : CompanyRow)
    (hfindB : (total_df.map fillnaCompete).find?
      (fun r => decide (r.stock_code = B)) = some rowB) :
    ∀ n : Nat, 1 ≤ n →
      countCompetes ((fun h => add_competitor_relationships h total_df)^[n] g)
        ia ib = 1 := by
  intro n hn
  induction n with
  | zero => omega
  | succ k ih =>
      rw [Function.iterate_succ_apply']
      rcases Nat.eq_zero_or_pos k with rfl | hk
      · simp only [Function.iterate_zero, id_eq]
        exact add_competitor_relationships_once g total_df A B ia ib hAB hdashA
          hdashB hgA hgB hcount rowA hfindA hguard codes hcodes hBc rowB hfindB
      · have hck := ih hk
        have hnodes := add_competitor_iterate_nodes total_df k g
        exact add_competitor_relationships_once _ total_df A B ia ib hAB hdashA
          hdashB ((companyIds_congr hnodes A).trans hgA)
          ((companyIds_congr hnodes B).trans hgB) (by omega)
          rowA hfindA hguard codes hcodes hBc rowB hfindB

def c3Graph : Graph :=
  ⟨[⟨1, Label.company, [("stock_code", PVal.qs "000001")]⟩,
    ⟨2, Label.company, [("stock_code", PVal.qs "000002")]⟩], []⟩

def c3Df : List CompanyRow :=
  [⟨"000001", .vlist ["000002"]⟩, ⟨"000002", .vlist []⟩]

/-- Witness for C3: two runs over a two-company universe leave exactly one
`COMPETES_WITH` edge from company 000001 to 000002. -/
theorem add_competitor_relationships_exactly_once_witness :
    countCompetes ((fun h => add_competitor_relationships h c3Df)^[2] c3Graph)
      1 2 = 1 := by
  exact add_competitor_relationships_exactly_once c3Graph c3Df "000001" "000002"
    1 2 (by decide) (by decide) (by decide) (by decide) (by decide) (by decide)
    ⟨"000001", .vlist ["000002"]⟩ (by decide) (by decide)
    ["000002"] (by decide) (by decide)
    ⟨"000002", .vlist []⟩ (by decide) 2 (by decide)
